import Mathlib

/-!
Verification development for a small tabular data-preparation pipeline
(`data_processing.py` and `feature_engineering.py`).

A pandas `DataFrame` is modelled as a list of rows; each row is an
association list from column names to values.  A value is a string, a
number (modelled as a rational, standing for Python floats/ints), or the
missing marker `NaN` (`vNA`).  Fallible operations (Python exceptions)
are modelled with `Option`/`Except`.
-/

/-- A cell value: a string, a number, or the missing marker (pandas `NaN`).
Numbers are modelled as rationals.  Note that pandas treats two `NaN`
cells as equal for the purposes of `drop_duplicates`, which matches
ordinary equality on `vNA`. -/
inductive Value where
  | vStr (s : String)
  | vNum (q : ℚ)
  | vNA
deriving DecidableEq

/-- A row: an association list from column name to value. -/
abbrev Row := List (String × Value)

/-- A dataframe: an ordered list of rows. -/
abbrev DataFrame := List Row

/-- Read the value of column `c` in a row (first occurrence of the key). -/
def getVal : Row → String → Option Value
  | [], _ => none
  | (k, w) :: t, c => if k = c then some w else getVal t c

/-- Read a whole column: `df[c]`. Returns `none` if some row lacks the key,
modelling the pandas `KeyError` for a missing column. -/
def getCol : DataFrame → String → Option (List Value)
  | [], _ => some []
  | r :: rs, c =>
    match getVal r c, getCol rs c with
    | some v, some vs => some (v :: vs)
    | _, _ => none

/-- Write value `v` into column `c` of a row, replacing the first occurrence
of the key or appending the column if absent (pandas `df[c] = ...`). -/
def setVal : Row → String → Value → Row
  | [], c, v => [(c, v)]
  | (k, w) :: t, c, v => if k = c then (c, v) :: t else (k, w) :: setVal t c v

/-- Assign a list of values to column `c`, row by row: `df[c] = vs`. -/
def setCol (df : DataFrame) (c : String) (vs : List Value) : DataFrame :=
  List.zipWith (fun r v => setVal r c v) df vs

/-- Remove column `c` from every row (`df.drop(columns=[c], errors="ignore")`). -/
def dropColumn (df : DataFrame) (c : String) : DataFrame :=
  df.map (fun r => r.filter (fun kv => kv.1 ≠ c))

/-- Helper for `dedupFirst`: keep rows not seen before. -/
def dedupAux : List Row → List Row → List Row
  | [], _ => []
  | r :: rs, seen => if r ∈ seen then dedupAux rs seen else r :: dedupAux rs (r :: seen)

/-- `df.drop_duplicates()`: remove exact-duplicate rows, keeping the first
occurrence, preserving order. -/
def dedupFirst (df : DataFrame) : DataFrame := dedupAux df []

/-! ### Basic lemmas about the dataframe operations -/

theorem getVal_setVal_self (r : Row) (c : String) (v : Value) :
    getVal (setVal r c v) c = some v := by
  induction r with
  | nil => simp [setVal, getVal]
  | cons kv t ih =>
    obtain ⟨k, w⟩ := kv
    by_cases h : k = c
    · simp [setVal, h, getVal]
    · simp [setVal, h, getVal, ih]

theorem getVal_setVal_ne (r : Row) (c c' : String) (v : Value) (h : c' ≠ c) :
    getVal (setVal r c v) c' = getVal r c' := by
  induction r with
  | nil => simp [setVal, getVal, Ne.symm h]
  | cons kv t ih =>
    obtain ⟨k, w⟩ := kv
    by_cases hk : k = c
    · subst hk
      simp [setVal, getVal, Ne.symm h]
    · by_cases hk' : k = c'
      · simp [setVal, hk, getVal, hk', h]
      · simp [setVal, hk, getVal, hk', ih]

theorem getCol_length {df : DataFrame} {c : String} {vs : List Value}
    (h : getCol df c = some vs) : vs.length = df.length := by
  induction df generalizing vs with
  | nil => simp [getCol] at h; simp [← h]
  | cons r rs ih =>
    simp only [getCol] at h
    cases hv : getVal r c with
    | none => rw [hv] at h; exact absurd h (by simp)
    | some v =>
      rw [hv] at h
      cases hc : getCol rs c with
      | none => rw [hc] at h; exact absurd h (by simp)
      | some ws =>
        rw [hc] at h
        cases h
        simp [ih hc]

theorem setCol_length {df : DataFrame} {c : String} {vs : List Value}
    (h : vs.length = df.length) : (setCol df c vs).length = df.length := by
  simp [setCol, h]

theorem getCol_setCol_self {df : DataFrame} {c : String} {vs : List Value}
    (h : vs.length = df.length) : getCol (setCol df c vs) c = some vs := by
  induction df generalizing vs with
  | nil =>
    cases vs with
    | nil => simp [setCol, getCol]
    | cons v t => simp at h
  | cons r rs ih =>
    cases vs with
    | nil => simp at h
    | cons v t =>
      simp only [List.length_cons, Nat.succ.injEq] at h
      simp only [setCol, List.zipWith_cons_cons, getCol]
      rw [getVal_setVal_self]
      have := @ih t h
      simp only [setCol] at this
      rw [this]

theorem getCol_setCol_ne {df : DataFrame} {c c' : String} {vs : List Value}
    (hlen : vs.length = df.length) (h : c' ≠ c) :
    getCol (setCol df c vs) c' = getCol df c' := by
  induction df generalizing vs with
  | nil => simp [setCol]
  | cons r rs ih =>
    cases vs with
    | nil => simp at hlen
    | cons v t =>
      simp only [List.length_cons, Nat.succ.injEq] at hlen
      simp only [setCol, List.zipWith_cons_cons, getCol]
      rw [getVal_setVal_ne r c c' v h]
      have := @ih t hlen
      simp only [setCol] at this
      rw [this]

/-! ### Label encoding (`feature_engineering.py`, `_encode_column` / `encode_features`)

`LabelEncoder` is modelled by its list of classes: `np.unique` of the fitted
strings, i.e. the distinct values in sorted order.  `astype(str)` is
modelled by `valueToStr`; pandas renders `NaN` as the string `"nan"`. -/

/-- `astype(str)` on one cell.  `NaN` becomes `"nan"`; numbers are rendered
by their rational representation (a deterministic stand-in for Python's
float formatting — the encoding claims depend only on it being a function). -/
def valueToStr : Value → String
  | .vStr s => s
  | .vNum q => toString q
  | .vNA => "nan"

/-- Lexicographic comparison of two character lists by code point.  This is
an explicitly computable rendering of `<` on `List Char` (see
`strLtAux_iff`). -/
def strLtAux : List Char → List Char → Bool
  | [], [] => false
  | [], _ :: _ => true
  | _ :: _, [] => false
  | a :: as, b :: bs =>
    if a.toNat < b.toNat then true
    else if b.toNat < a.toNat then false
    else strLtAux as bs

/-- Computable lexicographic string comparison, agreeing with `<` on
`String` (see `strLt_iff`); numpy sorts the fitted categories by exactly
this order. -/
def strLt (a b : String) : Bool := strLtAux a.data b.data

theorem char_eq_of_toNat_eq {a b : Char} (h : a.toNat = b.toNat) : a = b := by
  have h1 : ¬ a < b := fun hlt => absurd (show a.toNat < b.toNat from hlt) (by omega)
  have h2 : ¬ b < a := fun hlt => absurd (show b.toNat < a.toNat from hlt) (by omega)
  rcases lt_trichotomy a b with hl | he | hg
  · exact absurd hl h1
  · exact he
  · exact absurd hg h2

theorem strLtAux_iff : ∀ as bs : List Char, strLtAux as bs = true ↔ as < bs := by
  intro as
  induction as with
  | nil =>
    intro bs
    cases bs with
    | nil =>
      constructor
      · intro h; simp [strLtAux] at h
      · intro h; cases h
    | cons b bs =>
      constructor
      · intro _; exact List.Lex.nil
      · intro _; rfl
  | cons a as ih =>
    intro bs
    cases bs with
    | nil =>
      constructor
      · intro h; simp [strLtAux] at h
      · intro h; cases h
    | cons b bs =>
      rw [show strLtAux (a :: as) (b :: bs) =
        (if a.toNat < b.toNat then true
          else if b.toNat < a.toNat then false else strLtAux as bs) from rfl]
      by_cases h1 : a.toNat < b.toNat
      · rw [if_pos h1]
        constructor
        · intro _; exact List.Lex.rel h1
        · intro _; rfl
      · rw [if_neg h1]
        by_cases h2 : b.toNat < a.toNat
        · rw [if_pos h2]
          constructor
          · intro h; cases h
          · intro h
            cases h with
            | rel hr => exact absurd (show a.toNat < b.toNat from hr) h1
            | cons _ => exact absurd h2 (lt_irrefl _)
        · rw [if_neg h2]
          have hab : a = b := char_eq_of_toNat_eq (by omega)
          subst hab
          rw [ih bs]
          constructor
          · intro h; exact List.Lex.cons h
          · intro h
            cases h with
            | rel hr => exact absurd (show a.toNat < a.toNat from hr) (lt_irrefl _)
            | cons ht => exact ht

theorem strLt_iff (a b : String) : strLt a b = true ↔ a < b := by
  rw [String.lt_iff_toList_lt]
  exact strLtAux_iff a.data b.data

/-- Insert a string into a sorted duplicate-free list, keeping it sorted and
duplicate-free. -/
def insertSorted (x : String) : List String → List String
  | [] => [x]
  | y :: ys =>
    if strLt x y then x :: y :: ys
    else if x = y then y :: ys
    else y :: insertSorted x ys

/-- The distinct values of a list in ascending order: `np.unique`, which is
what `LabelEncoder.fit` stores in `classes_`. -/
def sortedUnique (xs : List String) : List String := xs.foldr insertSorted []

/-- Errors raised inside the encoding component. -/
inductive EncErr where
  | keyError      -- a referenced column is absent from the frame
  | indexError    -- `le.classes_[0]` with empty `classes_`
  | valueError    -- `le.transform` on a label not among the classes
deriving DecidableEq

/-- Remap one test-time string: values already among the classes are kept,
anything unseen falls back to `classes_[0]` (the first class in sorted
order); with no classes at all the subscript raises `IndexError` (`none`). -/
def remapAll (cls : List String) : List String → Option (List String)
  | [] => some []
  | x :: xs =>
    match (if x ∈ cls then some x else cls.head?), remapAll cls xs with
    | some y, some ys => some (y :: ys)
    | _, _ => none

/-- `le.transform`: each string to its integer code (its index among the
classes); a label not among the classes raises `ValueError`. -/
def leTransform (cls : List String) : List String → Except EncErr (List ℕ)
  | [] => .ok []
  | x :: xs =>
    if x ∈ cls then
      match leTransform cls xs with
      | .ok ns => .ok (cls.indexOf x :: ns)
      | .error e => .error e
    else .error .valueError

/-- `_encode_column(train, test, column)`: fit a `LabelEncoder` on the
training column cast to strings, replace the training column by the integer
codes (`fit_transform`), remap unseen test values to `classes_[0]`, then
`transform` the test column.  Returns the two updated frames and the fitted
classes. -/
def encode_column (train test : DataFrame) (column : String) :
    Except EncErr (DataFrame × DataFrame × List String) :=
  match getCol train column with
  | none => .error .keyError
  | some tvs =>
    let strs := tvs.map valueToStr
    let cls := sortedUnique strs
    let train' := setCol train column (strs.map (fun s => .vNum (cls.indexOf s)))
    match getCol test column with
    | none => .error .keyError
    | some uvs =>
      match remapAll cls (uvs.map valueToStr) with
      | none => .error .indexError
      | some rs =>
        match leTransform cls rs with
        | .error e => .error e
        | .ok codes =>
          .ok (train', setCol test column (codes.map (fun (n : ℕ) => Value.vNum (n : ℚ))), cls)

/-- The fixed set of columns encoded by `encode_features`. -/
def categoricalCols : List String := ["Sex", "Embarked", "Title", "AgeBin", "FareBin"]

/-- The loop body of `encode_features`: encode each column in turn, threading
the two frames and collecting the fitted encoder per column. -/
def encodeCols (train test : DataFrame) :
    List String → Except EncErr (DataFrame × DataFrame × List (String × List String))
  | [] => .ok (train, test, [])
  | c :: cs =>
    match encode_column train test c with
    | .error e => .error e
    | .ok (train', test', le) =>
      match encodeCols train' test' cs with
      | .error e => .error e
      | .ok (train2, test2, encs) => .ok (train2, test2, (c, le) :: encs)

/-- `encode_features(train, test)`: copy both frames (the embedding is pure,
so the copies are implicit) and label-encode the five categorical columns. -/
def encode_features (train test : DataFrame) :
    Except EncErr (DataFrame × DataFrame × List (String × List String)) :=
  encodeCols train test categoricalCols

/-- The number of distinct string categories of column `c` of `df`
(after casting to string). -/
def colDistinctCount (df : DataFrame) (c : String) : ℕ :=
  (sortedUnique (((getCol df c).getD []).map valueToStr)).length

/-! ### Lemmas about the fitted classes and the transforms -/

theorem mem_insertSorted (x z : String) (l : List String) :
    z ∈ insertSorted x l ↔ z = x ∨ z ∈ l := by
  induction l with
  | nil => simp [insertSorted]
  | cons y ys ih =>
    by_cases h1 : strLt x y = true
    · simp [insertSorted, h1]
    · by_cases h2 : x = y
      · subst h2
        rw [insertSorted, if_neg h1, if_pos rfl]
        constructor
        · intro h; exact Or.inr h
        · rintro (rfl | h)
          · exact List.mem_cons_self _ _
          · exact h
      · rw [insertSorted, if_neg h1, if_neg h2]
        simp only [List.mem_cons, ih]
        tauto

theorem pairwise_insertSorted (x : String) (l : List String)
    (h : l.Pairwise (· < ·)) : (insertSorted x l).Pairwise (· < ·) := by
  induction l with
  | nil => simp [insertSorted]
  | cons y ys ih =>
    rw [List.pairwise_cons] at h
    obtain ⟨hy, hys⟩ := h
    by_cases h1 : strLt x y = true
    · have h1' : x < y := (strLt_iff x y).mp h1
      rw [insertSorted, if_pos h1, List.pairwise_cons]
      refine ⟨?_, List.pairwise_cons.mpr ⟨hy, hys⟩⟩
      intro z hz
      rcases List.mem_cons.mp hz with rfl | hz
      · exact h1'
      · exact lt_trans h1' (hy z hz)
    · by_cases h2 : x = y
      · subst h2
        rw [insertSorted, if_neg h1, if_pos rfl, List.pairwise_cons]
        exact ⟨hy, hys⟩
      · rw [insertSorted, if_neg h1, if_neg h2, List.pairwise_cons]
        refine ⟨?_, ih hys⟩
        intro z hz
        rcases (mem_insertSorted x z ys).mp hz with rfl | hz
        · rcases lt_trichotomy z y with hlt | heq | hgt
          · exact absurd ((strLt_iff z y).mpr hlt) h1
          · exact absurd heq h2
          · exact hgt
        · exact hy z hz

theorem mem_sortedUnique (s : String) (xs : List String) :
    s ∈ sortedUnique xs ↔ s ∈ xs := by
  induction xs with
  | nil => simp [sortedUnique]
  | cons x t ih =>
    simp only [sortedUnique, List.foldr_cons] at *
    rw [mem_insertSorted, ih, List.mem_cons]

theorem pairwise_sortedUnique (xs : List String) :
    (sortedUnique xs).Pairwise (· < ·) := by
  induction xs with
  | nil => simp [sortedUnique]
  | cons x t ih =>
    simp only [sortedUnique, List.foldr_cons] at *
    exact pairwise_insertSorted x _ ih

/-- In a strictly sorted list, the index of a member equals the number of
elements strictly below it.  This is the "codes assigned by sorted order"
characterization: the code of a category counts the distinct categories that
sort before it, so the smallest category gets code 0. -/
theorem indexOf_eq_rank {cls : List String} (hs : cls.Pairwise (· < ·))
    {s : String} (hmem : s ∈ cls) :
    cls.indexOf s = (cls.filter (fun t => decide (t < s))).length := by
  induction cls with
  | nil => cases hmem
  | cons a t ih =>
    rw [List.pairwise_cons] at hs
    obtain ⟨ha, ht⟩ := hs
    by_cases h : s = a
    · have hnone : ∀ x ∈ a :: t, ¬(x < s) := by
        intro x hx
        rcases List.mem_cons.mp hx with rfl | hx
        · rw [h]; exact lt_irrefl x
        · rw [h]; exact fun hlt => lt_asymm hlt (ha x hx)
      have hfilter : (a :: t).filter (fun t' => decide (t' < s)) = [] := by
        rw [List.filter_eq_nil_iff]
        intro x hx
        simp only [decide_eq_true_eq]
        exact hnone x hx
      rw [hfilter, h, List.indexOf_cons_self]
      rfl
    · have hmt : s ∈ t := by
        rcases List.mem_cons.mp hmem with rfl | hx
        · exact absurd rfl h
        · exact hx
      have has : a < s := ha s hmt
      rw [List.indexOf_cons_ne _ (fun he => h (Eq.symm he))]
      rw [List.filter_cons]
      simp only [has, decide_eq_true_eq, if_true, List.length_cons]
      simp only [ih ht hmt]

theorem remapAll_of_ne_nil {cls : List String} (h : cls ≠ []) (xs : List String) :
    remapAll cls xs = some (xs.map (fun x => if x ∈ cls then x else cls.headD "")) := by
  induction xs with
  | nil => simp [remapAll]
  | cons x t ih =>
    obtain ⟨c0, cs, rfl⟩ := List.exists_cons_of_ne_nil h
    by_cases hx : x ∈ c0 :: cs
    · simp only [remapAll, if_pos hx, ih]
      simp only [List.mem_cons] at hx
      simp [hx]
    · simp only [remapAll, if_neg hx, ih]
      simp only [List.mem_cons] at hx
      push_neg at hx
      simp [List.head?, List.headD, hx.1, hx.2]

theorem leTransform_all_mem {cls : List String} (xs : List String)
    (h : ∀ x ∈ xs, x ∈ cls) :
    leTransform cls xs = .ok (xs.map (fun x => cls.indexOf x)) := by
  induction xs with
  | nil => simp [leTransform]
  | cons x t ih =>
    have hx : x ∈ cls := h x (List.mem_cons_self _ _)
    have ht : ∀ y ∈ t, y ∈ cls := fun y hy => h y (List.mem_cons_of_mem _ hy)
    simp [leTransform, hx, ih ht]

theorem leTransform_ok_bound {cls xs : List String} {ns : List ℕ}
    (h : leTransform cls xs = .ok ns) : ∀ n ∈ ns, n < cls.length := by
  induction xs generalizing ns with
  | nil =>
    simp [leTransform] at h
    subst h
    intro n hn
    cases hn
  | cons x t ih =>
    simp only [leTransform] at h
    by_cases hx : x ∈ cls
    · rw [if_pos hx] at h
      cases hrec : leTransform cls t with
      | ok ms =>
        rw [hrec] at h
        cases h
        intro n hn
        rcases List.mem_cons.mp hn with rfl | hn
        · exact List.indexOf_lt_length.mpr hx
        · exact ih hrec n hn
      | error e => rw [hrec] at h; cases h
    · rw [if_neg hx] at h; cases h

theorem remapAll_length {cls xs : List String} {rs : List String}
    (h : remapAll cls xs = some rs) : rs.length = xs.length := by
  induction xs generalizing rs with
  | nil => simp [remapAll] at h; simp [← h]
  | cons x t ih =>
    simp only [remapAll] at h
    cases hy : (if x ∈ cls then some x else cls.head?) with
    | none => rw [hy] at h; cases h
    | some y =>
      rw [hy] at h
      cases hr : remapAll cls t with
      | none => rw [hr] at h; cases h
      | some ys =>
        rw [hr] at h
        cases h
        simp [ih hr]

theorem leTransform_length {cls xs : List String} {ns : List ℕ}
    (h : leTransform cls xs = .ok ns) : ns.length = xs.length := by
  induction xs generalizing ns with
  | nil => simp [leTransform] at h; simp [← h]
  | cons x t ih =>
    simp only [leTransform] at h
    by_cases hx : x ∈ cls
    · rw [if_pos hx] at h
      cases hr : leTransform cls t with
      | ok ms =>
        rw [hr] at h
        cases h
        simp [ih hr]
      | error e => rw [hr] at h; cases h
    · rw [if_neg hx] at h; cases h

/-- Inversion of a successful `_encode_column` call into its constituents. -/
theorem encode_column_ok {train test : DataFrame} {c : String}
    {tr' te' : DataFrame} {cls : List String}
    (h : encode_column train test c = .ok (tr', te', cls)) :
    ∃ tvs uvs rs codes,
      getCol train c = some tvs ∧ getCol test c = some uvs ∧
      cls = sortedUnique (tvs.map valueToStr) ∧
      tr' = setCol train c ((tvs.map valueToStr).map
        (fun s => .vNum (cls.indexOf s))) ∧
      remapAll cls (uvs.map valueToStr) = some rs ∧
      leTransform cls rs = .ok codes ∧
      te' = setCol test c (codes.map (fun (n : ℕ) => Value.vNum (n : ℚ))) := by
  simp only [encode_column] at h
  split at h
  · exact Except.noConfusion h
  rename_i tvs h1
  split at h
  · exact Except.noConfusion h
  rename_i uvs h2
  split at h
  · exact Except.noConfusion h
  rename_i rs h3
  split at h
  · exact Except.noConfusion h
  rename_i codes h4
  injection h with h
  rw [Prod.mk.injEq, Prod.mk.injEq] at h
  obtain ⟨hA, hB, hC⟩ := h
  subst hA; subst hB; subst hC
  exact ⟨tvs, uvs, rs, codes, h1, h2, rfl, rfl, h3, h4, rfl⟩

theorem sortedUnique_ne_nil {xs : List String} (h : xs ≠ []) :
    sortedUnique xs ≠ [] := by
  obtain ⟨x, t, rfl⟩ := List.exists_cons_of_ne_nil h
  intro hcon
  have : x ∈ sortedUnique (x :: t) := (mem_sortedUnique x (x :: t)).mpr (List.mem_cons_self _ _)
  rw [hcon] at this
  cases this

/-- Encoding column `c` leaves every other column of both frames unchanged. -/
theorem encode_column_frame {train test tr' te' : DataFrame} {c : String}
    {cls : List String} (h : encode_column train test c = .ok (tr', te', cls))
    {c' : String} (hne : c' ≠ c) :
    getCol tr' c' = getCol train c' ∧ getCol te' c' = getCol test c' := by
  obtain ⟨tvs, uvs, rs, codes, h1, h2, _, htr, h3, h4, hte⟩ := encode_column_ok h
  constructor
  · rw [htr]
    apply getCol_setCol_ne _ hne
    simp [getCol_length h1]
  · rw [hte]
    apply getCol_setCol_ne _ hne
    have l1 := leTransform_length h4
    have l2 := remapAll_length h3
    simp only [List.length_map] at *
    rw [l1, l2, getCol_length h2]

/-- An encoded column holds integer codes in `[0, number of distinct training
categories)`. -/
def codesBounded (df : DataFrame) (c : String) (n : ℕ) : Prop :=
  ∃ vs, getCol df c = some vs ∧ ∀ v ∈ vs, ∃ k : ℕ, v = .vNum (k : ℚ) ∧ k < n

theorem encode_column_bounded {train test tr' te' : DataFrame} {c : String}
    {cls : List String} (h : encode_column train test c = .ok (tr', te', cls)) :
    codesBounded tr' c (colDistinctCount train c) ∧
      codesBounded te' c (colDistinctCount train c) := by
  obtain ⟨tvs, uvs, rs, codes, h1, h2, hcls, htr, h3, h4, hte⟩ := encode_column_ok h
  have hcount : colDistinctCount train c = cls.length := by
    simp [colDistinctCount, h1, hcls]
  constructor
  · refine ⟨(tvs.map valueToStr).map (fun s => Value.vNum ((cls.indexOf s : ℕ) : ℚ)), ?_, ?_⟩
    · rw [htr]
      apply getCol_setCol_self
      simp [getCol_length h1]
    · intro v hv
      simp only [List.mem_map] at hv
      obtain ⟨s, hs, rfl⟩ := hv
      refine ⟨cls.indexOf s, rfl, ?_⟩
      rw [hcount]
      apply List.indexOf_lt_length.mpr
      rw [hcls, mem_sortedUnique]
      exact List.mem_map.mpr (by simpa using hs)
  · refine ⟨codes.map (fun (n : ℕ) => Value.vNum (n : ℚ)), ?_, ?_⟩
    · rw [hte]
      apply getCol_setCol_self
      have l1 := leTransform_length h4
      have l2 := remapAll_length h3
      simp only [List.length_map] at *
      rw [l1, l2, getCol_length h2]
    · intro v hv
      simp only [List.mem_map] at hv
      obtain ⟨k, hk, rfl⟩ := hv
      exact ⟨k, rfl, hcount ▸ leTransform_ok_bound h4 k hk⟩

theorem colDistinctCount_congr {df df' : DataFrame} {c : String}
    (h : getCol df c = getCol df' c) : colDistinctCount df c = colDistinctCount df' c := by
  rw [colDistinctCount, colDistinctCount, h]

/-- Columns not in the worklist survive `encodeCols` untouched. -/
theorem encodeCols_frame {cols : List String} :
    ∀ {train test tr2 te2 : DataFrame} {encs : List (String × List String)},
    encodeCols train test cols = .ok (tr2, te2, encs) →
    ∀ c' ∉ cols, getCol tr2 c' = getCol train c' ∧ getCol te2 c' = getCol test c' := by
  induction cols with
  | nil =>
    intro train test tr2 te2 encs h c' _
    simp only [encodeCols] at h
    injection h with h
    rw [Prod.mk.injEq, Prod.mk.injEq] at h
    obtain ⟨hA, hB, _⟩ := h
    rw [hA, hB]
    exact ⟨rfl, rfl⟩
  | cons c cs ih =>
    intro train test tr2 te2 encs h c' hc'
    simp only [encodeCols] at h
    split at h
    · exact Except.noConfusion h
    rename_i t1 e1 le h1
    split at h
    · exact Except.noConfusion h
    rename_i t2 e2 encs2 h2
    injection h with h
    rw [Prod.mk.injEq, Prod.mk.injEq] at h
    obtain ⟨hA, hB, _⟩ := h
    subst hA; subst hB
    have hne : c' ≠ c := fun hcon => hc' (hcon ▸ List.mem_cons_self _ _)
    have hcs : c' ∉ cs := fun hcon => hc' (List.mem_cons_of_mem _ hcon)
    obtain ⟨f1, f2⟩ := encode_column_frame h1 hne
    obtain ⟨g1, g2⟩ := ih h2 c' hcs
    exact ⟨g1.trans f1, g2.trans f2⟩

/-- Each column processed by `encodeCols` ends up integer-coded within the
range determined by the distinct categories of that column in the incoming
training frame, provided the worklist has no repeated column names. -/
theorem encodeCols_bounded {cols : List String} (hnd : cols.Nodup) :
    ∀ {train test tr2 te2 : DataFrame} {encs : List (String × List String)},
    encodeCols train test cols = .ok (tr2, te2, encs) →
    ∀ c ∈ cols, codesBounded tr2 c (colDistinctCount train c) ∧
      codesBounded te2 c (colDistinctCount train c) := by
  induction cols with
  | nil =>
    intro train test tr2 te2 encs _ c hc
    cases hc
  | cons c0 cs ih =>
    intro train test tr2 te2 encs h c hc
    rw [List.nodup_cons] at hnd
    obtain ⟨hc0, hcs⟩ := hnd
    simp only [encodeCols] at h
    split at h
    · exact Except.noConfusion h
    rename_i t1 e1 le h1
    split at h
    · exact Except.noConfusion h
    rename_i t2 e2 encs2 h2
    injection h with h
    rw [Prod.mk.injEq, Prod.mk.injEq] at h
    obtain ⟨hA, hB, _⟩ := h
    subst hA; subst hB
    rcases List.mem_cons.mp hc with rfl | hmem
    · obtain ⟨b1, b2⟩ := encode_column_bounded h1
      obtain ⟨f1, f2⟩ := encodeCols_frame h2 c hc0
      obtain ⟨vs1, hv1, hb1⟩ := b1
      obtain ⟨vs2, hv2, hb2⟩ := b2
      exact ⟨⟨vs1, f1.trans hv1, hb1⟩, ⟨vs2, f2.trans hv2, hb2⟩⟩
    · have hne : c ≠ c0 := fun hcon => hc0 (hcon ▸ hmem)
      obtain ⟨f1, _⟩ := encode_column_frame h1 hne
      have := ih hcs h2 c hmem
      rw [colDistinctCount_congr f1] at this
      exact this

/-! ### Claims C1, C2, C3 -/

/-- C1 (counterexample): the claim says that for every train/test pair an
unseen test-time category is remapped and encoded with no error ever raised.
With an empty training column everything in the test column is unseen and
`le.classes_[0]` raises `IndexError`: the code does raise for an unseen
test-time category in this case. -/
theorem claim1_counterexample :
    encode_column [] [[("Sex", Value.vStr "other")]] "Sex" = .error .indexError := by
  rfl

/-- C1 (amended): provided the training column is non-empty, any test value
whose string form is not among the fitted categories is remapped to the
first category in sorted order and receives integer code 0, and no error is
raised. -/
theorem claim1_unseen_category_to_zero {train test : DataFrame} {c : String}
    {tvs uvs : List Value}
    (h1 : getCol train c = some tvs) (hne : tvs ≠ [])
    (h2 : getCol test c = some uvs) :
    ∃ (tr' te' : DataFrame) (cls : List String) (codes : List ℕ),
      encode_column train test c = .ok (tr', te', cls) ∧
      cls.Pairwise (· < ·) ∧
      getCol te' c = some (codes.map (fun (n : ℕ) => Value.vNum (n : ℚ))) ∧
      codes.length = uvs.length ∧
      (∀ (i : ℕ) (v : Value), uvs[i]? = some v → valueToStr v ∉ cls → codes[i]? = some 0) := by
  have hstrs : tvs.map valueToStr ≠ [] := by
    intro hcon
    exact hne (List.map_eq_nil_iff.mp hcon)
  have hcls : sortedUnique (tvs.map valueToStr) ≠ [] := sortedUnique_ne_nil hstrs
  obtain ⟨c0, cs, hcc⟩ := List.exists_cons_of_ne_nil hcls
  have hremap := remapAll_of_ne_nil hcls (uvs.map valueToStr)
  have hmemall : ∀ x ∈ (uvs.map valueToStr).map
      (fun x => if x ∈ sortedUnique (tvs.map valueToStr) then x
        else (sortedUnique (tvs.map valueToStr)).headD ""), 
      x ∈ sortedUnique (tvs.map valueToStr) := by
    intro x hx
    simp only [List.mem_map] at hx
    obtain ⟨y, _, rfl⟩ := hx
    by_cases hy : y ∈ sortedUnique (tvs.map valueToStr)
    · simp [hy]
    · simp only [hy, if_false]
      rw [hcc]
      exact List.mem_cons_self _ _
  have htrans := leTransform_all_mem _ hmemall
  have hok : ∃ tr' te' cls', encode_column train test c = .ok (tr', te', cls') := by
    simp only [encode_column, h1, h2, hremap, htrans]
    exact ⟨_, _, _, rfl⟩
  obtain ⟨tr', te', cls', hok⟩ := hok
  obtain ⟨tvs2, uvs2, rs2, codes2, h1', h2', hcls2, htr2, h3', h4', hte2⟩ :=
    encode_column_ok hok
  rw [h1] at h1'
  injection h1' with h1'
  subst h1'
  rw [h2] at h2'
  injection h2' with h2'
  subst h2'
  rw [← hcls2] at hremap htrans hcc
  rw [hremap] at h3'
  injection h3' with h3'
  subst h3'
  rw [htrans] at h4'
  injection h4' with h4'
  have hlen : codes2.length = uvs.length := by
    rw [← h4']
    simp
  refine ⟨tr', te', cls', codes2, hok, ?_, ?_, ?_, ?_⟩
  · rw [hcls2]
    exact pairwise_sortedUnique _
  · rw [hte2]
    apply getCol_setCol_self
    simp [hlen, getCol_length h2]
  · exact hlen
  · intro i v hv hnotin
    rw [← h4']
    rw [List.getElem?_map, List.getElem?_map, List.getElem?_map, hv]
    rw [hcc] at hnotin
    simp only [List.mem_cons] at hnotin
    push_neg at hnotin
    simp [hnotin.1, hnotin.2, hcc, List.indexOf_cons_self]

/-- C2: the integer codes assigned to the training column are determined by
the sorted order of the distinct string values: the fitted classes are
strictly sorted, contain exactly the strings of the column, the training
column is replaced by each value's index among the classes, and that index
equals the number of distinct strings sorting strictly below the value (so
the lexicographically smallest distinct string gets code 0).  Determinism
across runs on equal data is immediate since the embedding is a pure
function of the training column. -/
theorem claim2_codes_by_sorted_order {train test tr' te' : DataFrame} {c : String}
    {cls : List String} {tvs : List Value}
    (h : encode_column train test c = .ok (tr', te', cls))
    (h1 : getCol train c = some tvs) :
    cls.Pairwise (· < ·) ∧
    (∀ s, s ∈ cls ↔ s ∈ tvs.map valueToStr) ∧
    getCol tr' c = some ((tvs.map valueToStr).map
      (fun s => Value.vNum ((cls.indexOf s : ℕ) : ℚ))) ∧
    (∀ s ∈ cls, cls.indexOf s = (cls.filter (fun t => decide (t < s))).length) := by
  obtain ⟨tvs', uvs, rs, codes, h1', h2, hcls, htr, h3, h4, hte⟩ := encode_column_ok h
  rw [h1] at h1'
  injection h1' with h1'
  subst h1'
  have hpw : cls.Pairwise (· < ·) := by
    rw [hcls]; exact pairwise_sortedUnique _
  refine ⟨hpw, ?_, ?_, ?_⟩
  · intro s
    rw [hcls, mem_sortedUnique]
  · rw [htr]
    apply getCol_setCol_self
    simp [getCol_length h1]
  · intro s hs
    exact indexOf_eq_rank hpw hs

/-- C3: after `encode_features`, every value of each of the five encoded
columns, in both returned frames, is an integer code in
`[0, number of distinct string categories of that column in the incoming
training frame)`. -/
theorem claim3_encoded_values_in_range {train test tr2 te2 : DataFrame}
    {encs : List (String × List String)}
    (h : encode_features train test = .ok (tr2, te2, encs)) :
    ∀ c ∈ categoricalCols,
      codesBounded tr2 c (colDistinctCount train c) ∧
      codesBounded te2 c (colDistinctCount train c) := by
  have hnd : categoricalCols.Nodup := by decide
  exact encodeCols_bounded hnd h

/-- Concrete training frame with a single categorical column. -/
def exTrainSex : DataFrame :=
  [[("Sex", Value.vStr "male")], [("Sex", Value.vStr "female")], [("Sex", Value.vStr "male")]]

/-- Concrete test frame whose `Sex` value is unseen at fit time. -/
def exTestSex : DataFrame := [[("Sex", Value.vStr "other")]]

/-- The training frame after encoding: `male` ↦ 1, `female` ↦ 0. -/
def exTrainSexEnc : DataFrame :=
  [[("Sex", Value.vNum 1)], [("Sex", Value.vNum 0)], [("Sex", Value.vNum 1)]]

theorem claim1_unseen_category_to_zero_witness :
    ∃ (tr' te' : DataFrame) (cls : List String) (codes : List ℕ),
      encode_column exTrainSex exTestSex "Sex" = .ok (tr', te', cls) ∧
      cls.Pairwise (· < ·) ∧
      getCol te' "Sex" = some (codes.map (fun (n : ℕ) => Value.vNum (n : ℚ))) ∧
      codes.length = ([Value.vStr "other"] : List Value).length ∧
      (∀ (i : ℕ) (v : Value), ([Value.vStr "other"] : List Value)[i]? = some v →
        valueToStr v ∉ cls → codes[i]? = some 0) :=
  @claim1_unseen_category_to_zero exTrainSex exTestSex "Sex"
    [Value.vStr "male", Value.vStr "female", Value.vStr "male"] [Value.vStr "other"]
    (by rfl) (by decide) (by rfl)

theorem claim2_codes_by_sorted_order_witness :
    (["female", "male"] : List String).Pairwise (· < ·) ∧
    (∀ s, s ∈ (["female", "male"] : List String) ↔
      s ∈ ([Value.vStr "male", Value.vStr "female", Value.vStr "male"] : List Value).map valueToStr) ∧
    getCol exTrainSexEnc "Sex" =
      some ((([Value.vStr "male", Value.vStr "female", Value.vStr "male"] : List Value).map
        valueToStr).map
        (fun s => Value.vNum (((["female", "male"] : List String).indexOf s : ℕ) : ℚ))) ∧
    (∀ s ∈ (["female", "male"] : List String),
      (["female", "male"] : List String).indexOf s =
        ((["female", "male"] : List String).filter (fun t => decide (t < s))).length) :=
  @claim2_codes_by_sorted_order exTrainSex exTestSex exTrainSexEnc
    [[("Sex", Value.vNum 0)]] "Sex" ["female", "male"]
    [Value.vStr "male", Value.vStr "female", Value.vStr "male"]
    (by rfl) (by rfl)

/-- A concrete train/test pair over all five categorical columns. -/
def exTrain5 : DataFrame :=
  [[("Sex", Value.vStr "male"), ("Embarked", Value.vStr "S"), ("Title", Value.vStr "Mr"),
    ("AgeBin", Value.vStr "Adult"), ("FareBin", Value.vStr "Low")],
   [("Sex", Value.vStr "female"), ("Embarked", Value.vStr "C"), ("Title", Value.vStr "Mrs"),
    ("AgeBin", Value.vStr "Middle"), ("FareBin", Value.vStr "High")]]

def exTest5 : DataFrame :=
  [[("Sex", Value.vStr "other"), ("Embarked", Value.vStr "Q"), ("Title", Value.vStr "Mr"),
    ("AgeBin", Value.vNA), ("FareBin", Value.vStr "Low")]]

def exTrain5Enc : DataFrame :=
  [[("Sex", Value.vNum 1), ("Embarked", Value.vNum 1), ("Title", Value.vNum 0),
    ("AgeBin", Value.vNum 0), ("FareBin", Value.vNum 1)],
   [("Sex", Value.vNum 0), ("Embarked", Value.vNum 0), ("Title", Value.vNum 1),
    ("AgeBin", Value.vNum 1), ("FareBin", Value.vNum 0)]]

def exTest5Enc : DataFrame :=
  [[("Sex", Value.vNum 0), ("Embarked", Value.vNum 0), ("Title", Value.vNum 0),
    ("AgeBin", Value.vNum 0), ("FareBin", Value.vNum 1)]]

def exEncoders : List (String × List String) :=
  [("Sex", ["female", "male"]), ("Embarked", ["C", "S"]), ("Title", ["Mr", "Mrs"]),
   ("AgeBin", ["Adult", "Middle"]), ("FareBin", ["High", "Low"])]

theorem claim3_encoded_values_in_range_witness :
    codesBounded exTrain5Enc "Sex" (colDistinctCount exTrain5 "Sex") ∧
    codesBounded exTest5Enc "Sex" (colDistinctCount exTrain5 "Sex") :=
  @claim3_encoded_values_in_range exTrain5 exTest5 exTrain5Enc exTest5Enc exEncoders
    (by rfl) "Sex" (by decide)

/-! ### Cleaning (`data_processing.py`, `clean_data`)

`Series.mode()` drops missing values, computes the most frequent values and
returns them in ascending sorted order; `.iloc[0]` therefore picks the
smallest value among those tied for the highest count (and raises
`IndexError` when there is no non-missing value at all).  `Series.median()`
drops missing values and takes the middle element (or the mean of the two
middle elements), raising on non-numeric data.  `fillna` with a dict fills
missing cells of the named columns only; a `NaN` fill value leaves the cell
missing. -/

/-- Strict comparison of cell values used for the sorted order of modes.
Within a kind it is the numeric or lexicographic order; across kinds the
order is fixed (`vNA < vNum < vStr`).  The claims only exercise columns of
a single kind, where this matches pandas; mixed-kind columns would make
pandas `mode` fall back to an unsorted result and are outside this model. -/
def vlt : Value → Value → Bool
  | .vNA, .vNA => false
  | .vNA, _ => true
  | _, .vNA => false
  | .vNum a, .vNum b => decide (a < b)
  | .vNum _, .vStr _ => true
  | .vStr _, .vNum _ => false
  | .vStr a, .vStr b => strLt a b

theorem vlt_irrefl (a : Value) : vlt a a = false := by
  cases a with
  | vStr s =>
    cases hb : strLt s s with
    | false => simp [vlt, hb]
    | true => exact absurd ((strLt_iff s s).mp hb) (lt_irrefl s)
  | vNum q => simp [vlt]
  | vNA => rfl

theorem strLt_trans {a b c : String} (h1 : strLt a b = true) (h2 : strLt b c = true) :
    strLt a c = true :=
  (strLt_iff a c).mpr (lt_trans ((strLt_iff a b).mp h1) ((strLt_iff b c).mp h2))

theorem vlt_trans {a b c : Value} (h1 : vlt a b = true) (h2 : vlt b c = true) :
    vlt a c = true := by
  cases a <;> cases b <;> cases c <;>
    simp [vlt] at * <;>
    first
      | exact strLt_trans h1 h2
      | exact lt_trans h1 h2

theorem vlt_trichotomy {a b : Value} (h : a ≠ b) :
    vlt a b = true ∨ vlt b a = true := by
  cases a with
  | vNA =>
    cases b with
    | vNA => exact absurd rfl h
    | vNum q => exact Or.inl rfl
    | vStr s => exact Or.inl rfl
  | vNum p =>
    cases b with
    | vNA => exact Or.inr rfl
    | vStr s => exact Or.inl rfl
    | vNum q =>
      have hpq : p ≠ q := fun hc => h (by rw [hc])
      rcases lt_trichotomy p q with hl | he | hg
      · exact Or.inl (by simp [vlt, hl])
      · exact absurd he hpq
      · exact Or.inr (by simp [vlt, hg])
  | vStr s =>
    cases b with
    | vNA => exact Or.inr rfl
    | vNum q => exact Or.inr rfl
    | vStr t =>
      have hst : s ≠ t := fun hc => h (by rw [hc])
      rcases lt_trichotomy s t with hl | he | hg
      · exact Or.inl (by simp [vlt, (strLt_iff s t).mpr hl])
      · exact absurd he hst
      · exact Or.inr (by simp [vlt, (strLt_iff t s).mpr hg])

/-- One comparison step of the mode computation: keep the more frequent
value; on a tie keep the smaller one (pandas returns the modes in ascending
order and `.iloc[0]` takes the smallest). -/
def modeStep (ys : List Value) (b x : Value) : Value :=
  if ys.count b < ys.count x then x
  else if ys.count x = ys.count b ∧ vlt x b = true then x else b

/-- `series.mode().iloc[0]`: drop missing values; among the values of
maximal multiplicity return the smallest; `none` when no non-missing value
exists (pandas raises `IndexError` on `.iloc[0]` of an empty mode series). -/
def seriesMode (vs : List Value) : Option Value :=
  match vs.filter (fun v => v ≠ Value.vNA) with
  | [] => none
  | y :: t => some (t.foldl (modeStep (y :: t)) y)

theorem modeStep_cases (ys : List Value) (b x : Value) :
    modeStep ys b x = x ∨ modeStep ys b x = b := by
  rw [modeStep]
  split_ifs with h1 h2
  · exact Or.inl rfl
  · exact Or.inl rfl
  · exact Or.inr rfl

theorem modeFold_spec (ys : List Value) :
    ∀ (l : List Value) (b : Value),
    ((l.foldl (modeStep ys) b) = b ∨ (l.foldl (modeStep ys) b) ∈ l) ∧
    (∀ x, (x = b ∨ x ∈ l) →
      ys.count x < ys.count (l.foldl (modeStep ys) b) ∨
      (ys.count x = ys.count (l.foldl (modeStep ys) b) ∧
        vlt x (l.foldl (modeStep ys) b) = false)) := by
  intro l
  induction l with
  | nil =>
    intro b
    constructor
    · exact Or.inl rfl
    · intro x hx
      rcases hx with rfl | hx
      · exact Or.inr ⟨rfl, vlt_irrefl x⟩
      · cases hx
  | cons a t ih =>
    intro b
    obtain ⟨ihmem, ihp⟩ := ih (modeStep ys b a)
    simp only [List.foldl_cons]
    refine ⟨?_, ?_⟩
    · rcases ihmem with h | h
      · rw [h]
        rcases modeStep_cases ys b a with hs | hs
        · rw [hs]; exact Or.inr (List.mem_cons_self _ _)
        · rw [hs]; exact Or.inl rfl
      · exact Or.inr (List.mem_cons_of_mem _ h)
    · intro x hx
      have hP : ∀ z, z = modeStep ys b a ∨ z ∈ t →
          ys.count z < ys.count (t.foldl (modeStep ys) (modeStep ys b a)) ∨
          (ys.count z = ys.count (t.foldl (modeStep ys) (modeStep ys b a)) ∧
            vlt z (t.foldl (modeStep ys) (modeStep ys b a)) = false) := ihp
      set m := t.foldl (modeStep ys) (modeStep ys b a) with hm
      have hPb1 := hP (modeStep ys b a) (Or.inl rfl)
      rcases hx with rfl | hx
      · -- x = b
        rw [modeStep] at hPb1
        split_ifs at hPb1 with h1 h2
        · -- step took a because a is strictly more frequent than b
          rcases hPb1 with hlt | ⟨heq, _⟩
          · exact Or.inl (lt_trans h1 hlt)
          · exact Or.inl (heq ▸ h1)
        · -- tie, a smaller than b
          obtain ⟨hcnt, hvab⟩ := h2
          rcases hPb1 with hlt | ⟨heq, hvam⟩
          · exact Or.inl (hcnt ▸ hlt)
          · refine Or.inr ⟨by rw [← heq, hcnt], ?_⟩
            cases hvbm : vlt x m with
            | false => rfl
            | true => exact absurd (vlt_trans hvab hvbm) (by simp [hvam])
        · -- step kept b
          exact hPb1
      · rcases List.mem_cons.mp hx with rfl | hx
        · -- x = a
          rw [modeStep] at hPb1
          split_ifs at hPb1 with h1 h2
          · exact hPb1
          · exact hPb1
          · -- step kept b although a arrived: a not more frequent, not a smaller tie
            push_neg at h1
            rcases hPb1 with hlt | ⟨heq, hvbm⟩
            · exact Or.inl (lt_of_le_of_lt h1 hlt)
            · rcases lt_or_eq_of_le h1 with hlt2 | heq2
              · exact Or.inl (heq ▸ hlt2)
              · refine Or.inr ⟨by rw [← heq, heq2], ?_⟩
                have hvab : vlt x b = false := by
                  cases hv : vlt x b with
                  | false => rfl
                  | true => exact absurd ⟨heq2, hv⟩ h2
                cases hvam : vlt x m with
                | false => rfl
                | true =>
                  by_cases hbm : b = m
                  · rw [hbm] at hvab
                    exact absurd hvam (by simp [hvab])
                  · rcases vlt_trichotomy hbm with hv1 | hv2
                    · exact absurd hv1 (by simp [hvbm])
                    · exact absurd (vlt_trans hvam hv2) (by simp [hvab])
        · exact hP x (Or.inr hx)

theorem seriesMode_spec {vs : List Value} {m : Value} (h : seriesMode vs = some m) :
    m ∈ vs ∧ m ≠ Value.vNA ∧
    (∀ y ∈ vs, y ≠ Value.vNA →
      (vs.filter (fun v => v ≠ Value.vNA)).count y ≤
        (vs.filter (fun v => v ≠ Value.vNA)).count m) ∧
    (∀ y ∈ vs, y ≠ Value.vNA →
      (vs.filter (fun v => v ≠ Value.vNA)).count y =
        (vs.filter (fun v => v ≠ Value.vNA)).count m → vlt y m = false) := by
  rw [seriesMode] at h
  cases hf : vs.filter (fun v => v ≠ Value.vNA) with
  | nil => rw [hf] at h; cases h
  | cons y t =>
    rw [hf] at h
    injection h with h
    obtain ⟨hmem, hp⟩ := modeFold_spec (y :: t) t y
    rw [h] at hmem hp
    have hmf : m ∈ y :: t := by
      rcases hmem with rfl | hm
      · exact List.mem_cons_self _ _
      · exact List.mem_cons_of_mem _ hm
    have hmvs : m ∈ vs.filter (fun v => v ≠ Value.vNA) := hf ▸ hmf
    have hmm : m ∈ vs := List.mem_of_mem_filter hmvs
    have hmna : m ≠ Value.vNA := by
      have := List.of_mem_filter hmvs
      simpa using this
    refine ⟨hmm, hmna, ?_, ?_⟩
    · intro z hz hzna
      have hzf : z ∈ y :: t := by
        rw [← hf]
        exact List.mem_filter.mpr ⟨hz, by simpa using hzna⟩
      have hcase : z = y ∨ z ∈ t := List.mem_cons.mp hzf
      rcases hp z hcase with hlt | ⟨heq, _⟩
      · exact le_of_lt hlt
      · exact le_of_eq heq
    · intro z hz hzna hcnt
      have hzf : z ∈ y :: t := by
        rw [← hf]
        exact List.mem_filter.mpr ⟨hz, by simpa using hzna⟩
      have hcase : z = y ∨ z ∈ t := List.mem_cons.mp hzf
      rcases hp z hcase with hlt | ⟨_, hv⟩
      · exact absurd hcnt (ne_of_lt hlt)
      · exact hv

theorem seriesMode_isSome {vs : List Value} {y : Value}
    (hy : y ∈ vs) (hna : y ≠ Value.vNA) : ∃ m, seriesMode vs = some m := by
  rw [seriesMode]
  cases hf : vs.filter (fun v => v ≠ Value.vNA) with
  | nil =>
    have : y ∈ vs.filter (fun v => v ≠ Value.vNA) :=
      List.mem_filter.mpr ⟨hy, by simpa using hna⟩
    rw [hf] at this
    cases this
  | cons a t => exact ⟨_, rfl⟩

/-! ### Median, fill strategy and `clean_data` -/

/-- The numeric content of a cell, if any. -/
def numPart : Value → Option ℚ
  | .vNum q => some q
  | _ => none

/-- Rational arithmetic written through `mkRat` and integer arithmetic so
that the kernel can evaluate it on concrete inputs; `qAdd_eq`, `qSub_eq`,
`qMul_eq`, `qHalf_eq` and `qFloor_eq` identify these with the field
operations of `ℚ`. -/
def qAdd (a b : ℚ) : ℚ := mkRat (a.num * b.den + b.num * a.den) (a.den * b.den)

def qSub (a b : ℚ) : ℚ := mkRat (a.num * b.den - b.num * a.den) (a.den * b.den)

def qMul (a b : ℚ) : ℚ := mkRat (a.num * b.num) (a.den * b.den)

def qHalf (a : ℚ) : ℚ := mkRat a.num (a.den * 2)

def qFloor (a : ℚ) : ℤ := Int.fdiv a.num a.den

theorem qAdd_eq (a b : ℚ) : qAdd a b = a + b := by
  rw [qAdd, Rat.mkRat_eq_div]
  have ha : (a.den : ℚ) ≠ 0 := Nat.cast_ne_zero.mpr a.den_nz
  have hb : (b.den : ℚ) ≠ 0 := Nat.cast_ne_zero.mpr b.den_nz
  conv_rhs => rw [← Rat.num_div_den a, ← Rat.num_div_den b]
  push_cast
  field_simp
  try ring

theorem qSub_eq (a b : ℚ) : qSub a b = a - b := by
  rw [qSub, Rat.mkRat_eq_div]
  have ha : (a.den : ℚ) ≠ 0 := Nat.cast_ne_zero.mpr a.den_nz
  have hb : (b.den : ℚ) ≠ 0 := Nat.cast_ne_zero.mpr b.den_nz
  conv_rhs => rw [← Rat.num_div_den a, ← Rat.num_div_den b]
  push_cast
  field_simp
  try ring

theorem qMul_eq (a b : ℚ) : qMul a b = a * b := by
  rw [qMul, Rat.mkRat_eq_div]
  have ha : (a.den : ℚ) ≠ 0 := Nat.cast_ne_zero.mpr a.den_nz
  have hb : (b.den : ℚ) ≠ 0 := Nat.cast_ne_zero.mpr b.den_nz
  conv_rhs => rw [← Rat.num_div_den a, ← Rat.num_div_den b]
  push_cast
  field_simp
  try ring
  try ring

theorem qHalf_eq (a : ℚ) : qHalf a = a / 2 := by
  rw [qHalf, Rat.mkRat_eq_div]
  have ha : (a.den : ℚ) ≠ 0 := Nat.cast_ne_zero.mpr a.den_nz
  conv_rhs => rw [← Rat.num_div_den a]
  push_cast
  field_simp

theorem qFloor_eq (a : ℚ) : qFloor a = ⌊a⌋ := by
  rw [qFloor, Rat.floor_def, Int.fdiv_eq_ediv]
  exact Int.natCast_nonneg a.den

def insertQ (x : ℚ) : List ℚ → List ℚ
  | [] => [x]
  | y :: ys => if x ≤ y then x :: y :: ys else y :: insertQ x ys

/-- Insertion sort of rationals (ascending). -/
def sortQ (xs : List ℚ) : List ℚ := xs.foldr insertQ []

/-- `series.median()`: drop missing values, sort, take the middle element or
the mean of the two middle elements; `NaN` when no value remains. -/
def medianVal (vs : List Value) : Value :=
  let xs := sortQ (vs.filterMap numPart)
  if xs.length = 0 then Value.vNA
  else if xs.length % 2 = 1 then Value.vNum (xs.getD (xs.length / 2) 0)
  else Value.vNum (qHalf (qAdd (xs.getD (xs.length / 2 - 1) 0) (xs.getD (xs.length / 2) 0)))

/-- Fill a single cell: only missing cells of columns named by the strategy
are replaced (`df.fillna(strategy)`); a missing fill value keeps the cell
missing. -/
def fillValue (strat : List (String × Value)) (k : String) (v : Value) : Value :=
  if v = Value.vNA then (strat.lookup k).getD v else v

def fillRow (strat : List (String × Value)) (r : Row) : Row :=
  r.map (fun kv => (kv.1, fillValue strat kv.1 kv.2))

def isStrV : Value → Bool
  | .vStr _ => true
  | _ => false

/-- `clean_data(df)`: drop duplicate rows, drop the `Cabin` column, then
fill missing `Age`/`Fare` with the column median and missing `Embarked`
with the column mode, all computed over the post-dedup post-drop data.
`none` models the exceptions: a missing column (`KeyError`), string data in
a median column (`TypeError`), or `Embarked` with no non-missing value
(`IndexError` on `.mode().iloc[0]`). -/
def clean_data (df : DataFrame) : Option DataFrame :=
  let d2 := dropColumn (dedupFirst df) "Cabin"
  match getCol d2 "Age", getCol d2 "Embarked", getCol d2 "Fare" with
  | some ages, some embs, some fares =>
    if ages.any isStrV || fares.any isStrV then none
    else
      match seriesMode embs with
      | none => none
      | some m =>
        some (d2.map (fillRow
          [("Age", medianVal ages), ("Embarked", m), ("Fare", medianVal fares)]))
  | _, _, _ => none

/-- Modelled from the spec: the claim C5 tie-break — "the single most
frequent non-missing value (ties broken by first-encountered order)" — is
the first value, in row order, whose multiplicity among the non-missing
values is maximal. -/
def specModeFirst (vs : List Value) : Option Value :=
  let ys := vs.filter (fun v => v ≠ Value.vNA)
  ys.find? (fun y => ys.all (fun z => decide (ys.count z ≤ ys.count y)))

/-- Multiplicity of `y` among the non-missing entries of a column. -/
def countNN (vs : List Value) (y : Value) : ℕ :=
  (vs.filter (fun v => v ≠ Value.vNA)).count y

theorem length_insertQ (x : ℚ) (l : List ℚ) : (insertQ x l).length = l.length + 1 := by
  induction l with
  | nil => rfl
  | cons y ys ih =>
    rw [insertQ]
    split_ifs
    · rfl
    · simp [ih]

theorem length_sortQ (l : List ℚ) : (sortQ l).length = l.length := by
  induction l with
  | nil => rfl
  | cons y ys ih =>
    simp only [sortQ, List.foldr_cons] at *
    rw [length_insertQ, ih, List.length_cons]

theorem medianVal_eq_vNA_iff (vs : List Value) :
    medianVal vs = Value.vNA ↔ vs.filterMap numPart = [] := by
  rw [medianVal]
  by_cases h : (sortQ (vs.filterMap numPart)).length = 0
  · simp only [h, if_pos rfl, if_true]
    rw [length_sortQ] at h
    have hnil : vs.filterMap numPart = [] := List.eq_nil_of_length_eq_zero h
    simp [hnil]
  · rw [if_neg h]
    constructor
    · intro hc
      split_ifs at hc <;> cases hc
    · intro hc
      rw [length_sortQ, hc] at h
      exact absurd rfl h

theorem medianVal_not_str (vs : List Value) : isStrV (medianVal vs) = false := by
  rw [medianVal]
  split_ifs <;> rfl

theorem getVal_fillRow (strat : List (String × Value)) (r : Row) (k : String) :
    getVal (fillRow strat r) k = (getVal r k).map (fillValue strat k) := by
  induction r with
  | nil => rfl
  | cons kv t ih =>
    obtain ⟨k0, v0⟩ := kv
    by_cases h : k0 = k
    · subst h
      simp [fillRow, getVal]
    · simp only [fillRow, List.map_cons, getVal, h, if_false]
      simpa [fillRow] using ih

theorem getCol_map_fillRow {df : DataFrame} {k : String} {vs : List Value}
    (strat : List (String × Value)) (h : getCol df k = some vs) :
    getCol (df.map (fillRow strat)) k = some (vs.map (fillValue strat k)) := by
  induction df generalizing vs with
  | nil =>
    simp [getCol] at h
    simp [getCol, h]
  | cons r rs ih =>
    simp only [getCol] at h
    cases hv : getVal r k with
    | none => rw [hv] at h; cases h
    | some v =>
      rw [hv] at h
      cases hc : getCol rs k with
      | none => rw [hc] at h; cases h
      | some ws =>
        rw [hc] at h
        injection h with h
        subst h
        simp [List.map_cons, getCol, getVal_fillRow, hv, ih hc]

theorem dropColumn_keys {df : DataFrame} {c : String} {r : Row}
    (hr : r ∈ dropColumn df c) : ∀ kv ∈ r, kv.1 ≠ c := by
  simp only [dropColumn, List.mem_map] at hr
  obtain ⟨r0, _, rfl⟩ := hr
  intro kv hkv
  have := List.of_mem_filter hkv
  simpa using this

theorem map_eq_self_of {α : Type} {l : List α} {f : α → α}
    (h : ∀ a ∈ l, f a = a) : l.map f = l := by
  induction l with
  | nil => rfl
  | cons a t ih =>
    rw [List.map_cons, h a (List.mem_cons_self a t),
      ih (fun b hb => h b (List.mem_cons_of_mem _ hb))]

theorem filter_eq_self_of {α : Type} {l : List α} {p : α → Bool}
    (h : ∀ a ∈ l, p a = true) : l.filter p = l := by
  induction l with
  | nil => rfl
  | cons a t ih =>
    rw [List.filter_cons, if_pos (h a (List.mem_cons_self a t)),
      ih (fun b hb => h b (List.mem_cons_of_mem _ hb))]

theorem dropColumn_eq_self {df : DataFrame} {c : String}
    (h : ∀ r ∈ df, ∀ kv ∈ r, kv.1 ≠ c) : dropColumn df c = df := by
  rw [dropColumn]
  apply map_eq_self_of
  intro r hr
  apply filter_eq_self_of
  intro kv hkv
  simpa using h r hr kv hkv

/-- Inversion of a successful `clean_data` call. -/
theorem clean_data_ok {df c : DataFrame} (h : clean_data df = some c) :
    ∃ ages embs fares m,
      getCol (dropColumn (dedupFirst df) "Cabin") "Age" = some ages ∧
      getCol (dropColumn (dedupFirst df) "Cabin") "Embarked" = some embs ∧
      getCol (dropColumn (dedupFirst df) "Cabin") "Fare" = some fares ∧
      ages.any isStrV = false ∧ fares.any isStrV = false ∧
      seriesMode embs = some m ∧
      c = (dropColumn (dedupFirst df) "Cabin").map (fillRow
        [("Age", medianVal ages), ("Embarked", m), ("Fare", medianVal fares)]) := by
  simp only [clean_data] at h
  split at h
  rename_i ages embs fares h1 h2 h3
  · split at h
    · exact Option.noConfusion h
    rename_i hcond
    split at h
    · exact Option.noConfusion h
    rename_i m hm
    injection h with h
    simp only [Bool.or_eq_true, not_or, Bool.not_eq_true] at hcond
    exact ⟨ages, embs, fares, m, h1, h2, h3, hcond.1, hcond.2, hm, h.symm⟩
  · exact Option.noConfusion h

theorem any_false_iff {α : Type} {l : List α} {p : α → Bool} :
    l.any p = false ↔ ∀ a ∈ l, p a = false := by
  constructor
  · intro h a ha
    cases hp : p a
    · rfl
    · exact absurd (List.any_eq_true.mpr ⟨a, ha, hp⟩) (by simp [h])
  · intro h
    cases hb : l.any p
    · rfl
    · obtain ⟨a, ha, hp⟩ := List.any_eq_true.mp hb
      rw [h a ha] at hp
      cases hp

theorem fillValue_age (mA mE mF v : Value) :
    fillValue [("Age", mA), ("Embarked", mE), ("Fare", mF)] "Age" v =
      if v = Value.vNA then mA else v := by
  by_cases h : v = Value.vNA
  · simp [fillValue, h, List.lookup]
  · simp [fillValue, h]

theorem fillValue_embarked (mA mE mF v : Value) :
    fillValue [("Age", mA), ("Embarked", mE), ("Fare", mF)] "Embarked" v =
      if v = Value.vNA then mE else v := by
  by_cases h : v = Value.vNA
  · simp [fillValue, h, List.lookup]
  · simp [fillValue, h]

theorem fillValue_fare (mA mE mF v : Value) :
    fillValue [("Age", mA), ("Embarked", mE), ("Fare", mF)] "Fare" v =
      if v = Value.vNA then mF else v := by
  by_cases h : v = Value.vNA
  · simp [fillValue, h, List.lookup]
  · simp [fillValue, h]

theorem fillValue_other (mA mE mF v : Value) {k : String}
    (h1 : k ≠ "Age") (h2 : k ≠ "Embarked") (h3 : k ≠ "Fare") :
    fillValue [("Age", mA), ("Embarked", mE), ("Fare", mF)] k v = v := by
  have b1 : (k == "Age") = false := beq_eq_false_iff_ne.mpr h1
  have b2 : (k == "Embarked") = false := beq_eq_false_iff_ne.mpr h2
  have b3 : (k == "Fare") = false := beq_eq_false_iff_ne.mpr h3
  by_cases h : v = Value.vNA
  · simp [fillValue, h, List.lookup, b1, b2, b3]
  · simp [fillValue, h]

/-- Re-cleaning a cleaned frame is a no-op, provided the cleaned frame has
no duplicate rows: the `Cabin` column is already gone, the filled columns
either contain no missing value any more or are entirely missing (in which
case the new fill value is again missing), so the second `fillna` changes
nothing. -/
theorem refill_fix {d2 : DataFrame} {ages embs fares : List Value} {m : Value}
    (hA : getCol d2 "Age" = some ages)
    (hE : getCol d2 "Embarked" = some embs)
    (hF : getCol d2 "Fare" = some fares)
    (hsa : ages.any isStrV = false) (hsf : fares.any isStrV = false)
    (hm : seriesMode embs = some m)
    (hnoCab : ∀ r ∈ d2, ∀ kv ∈ r, kv.1 ≠ "Cabin")
    (hnd : dedupFirst (d2.map (fillRow
      [("Age", medianVal ages), ("Embarked", m), ("Fare", medianVal fares)])) =
      d2.map (fillRow
        [("Age", medianVal ages), ("Embarked", m), ("Fare", medianVal fares)])) :
    clean_data (d2.map (fillRow
      [("Age", medianVal ages), ("Embarked", m), ("Fare", medianVal fares)])) =
    some (d2.map (fillRow
      [("Age", medianVal ages), ("Embarked", m), ("Fare", medianVal fares)])) := by
  have hagesF : ∀ a ∈ ages, isStrV a = false := any_false_iff.mp hsa
  have hfaresF : ∀ a ∈ fares, isStrV a = false := any_false_iff.mp hsf
  obtain ⟨hmm, hmna, _, _⟩ := seriesMode_spec hm
  have hnoCab' : ∀ r ∈ d2.map (fillRow
      [("Age", medianVal ages), ("Embarked", m), ("Fare", medianVal fares)]),
      ∀ kv ∈ r, kv.1 ≠ "Cabin" := by
    intro r hr kv hkv
    rw [List.mem_map] at hr
    obtain ⟨r0, hr0, rfl⟩ := hr
    rw [fillRow, List.mem_map] at hkv
    obtain ⟨kv0, hkv0, rfl⟩ := hkv
    exact hnoCab r0 hr0 kv0 hkv0
  have hdrop := dropColumn_eq_self hnoCab'
  have hA' := getCol_map_fillRow
    [("Age", medianVal ages), ("Embarked", m), ("Fare", medianVal fares)] hA
  have hE' := getCol_map_fillRow
    [("Age", medianVal ages), ("Embarked", m), ("Fare", medianVal fares)] hE
  have hF' := getCol_map_fillRow
    [("Age", medianVal ages), ("Embarked", m), ("Fare", medianVal fares)] hF
  have hsa' : (ages.map (fillValue
      [("Age", medianVal ages), ("Embarked", m), ("Fare", medianVal fares)] "Age")).any
        isStrV = false := by
    rw [any_false_iff]
    intro a ha
    rw [List.mem_map] at ha
    obtain ⟨a0, ha0, rfl⟩ := ha
    rw [fillValue_age]
    split_ifs
    · exact medianVal_not_str ages
    · exact hagesF a0 ha0
  have hsf' : (fares.map (fillValue
      [("Age", medianVal ages), ("Embarked", m), ("Fare", medianVal fares)] "Fare")).any
        isStrV = false := by
    rw [any_false_iff]
    intro a ha
    rw [List.mem_map] at ha
    obtain ⟨a0, ha0, rfl⟩ := ha
    rw [fillValue_fare]
    split_ifs
    · exact medianVal_not_str fares
    · exact hfaresF a0 ha0
  have hmE : fillValue
      [("Age", medianVal ages), ("Embarked", m), ("Fare", medianVal fares)] "Embarked" m
      = m := by
    rw [fillValue_embarked, if_neg hmna]
  have hmem' : m ∈ embs.map (fillValue
      [("Age", medianVal ages), ("Embarked", m), ("Fare", medianVal fares)] "Embarked") :=
    List.mem_map.mpr ⟨m, hmm, hmE⟩
  obtain ⟨m', hm'⟩ := seriesMode_isSome hmem' hmna
  -- the second fill changes nothing
  have hid : (d2.map (fillRow
      [("Age", medianVal ages), ("Embarked", m), ("Fare", medianVal fares)])).map
      (fillRow
        [("Age", medianVal (ages.map (fillValue
            [("Age", medianVal ages), ("Embarked", m), ("Fare", medianVal fares)] "Age"))),
         ("Embarked", m'),
         ("Fare", medianVal (fares.map (fillValue
            [("Age", medianVal ages), ("Embarked", m), ("Fare", medianVal fares)] "Fare")))]) =
      d2.map (fillRow
        [("Age", medianVal ages), ("Embarked", m), ("Fare", medianVal fares)]) := by
    apply map_eq_self_of
    intro r hr
    rw [List.mem_map] at hr
    obtain ⟨r0, hr0, rfl⟩ := hr
    rw [fillRow]
    apply map_eq_self_of
    intro kv hkv
    rw [fillRow, List.mem_map] at hkv
    obtain ⟨⟨k, v0⟩, hkv0, rfl⟩ := hkv
    dsimp only
    by_cases hw : fillValue
        [("Age", medianVal ages), ("Embarked", m), ("Fare", medianVal fares)] k v0 =
        Value.vNA
    · rw [hw]
      by_cases hk1 : k = "Age"
      · subst hk1
        rw [fillValue_age] at hw
        by_cases hv0 : v0 = Value.vNA
        · rw [if_pos hv0] at hw
          -- the Age median is itself missing: Age is entirely missing
          have hagesId : ages.map (fillValue
              [("Age", medianVal ages), ("Embarked", m), ("Fare", medianVal fares)] "Age")
              = ages := by
            apply map_eq_self_of
            intro a ha
            rw [fillValue_age]
            split_ifs with hna
            · rw [hna, hw]
            · rfl
          rw [fillValue_age, if_pos rfl, hagesId, hw]
        · rw [if_neg hv0] at hw
          exact absurd hw hv0
      · by_cases hk2 : k = "Embarked"
        · subst hk2
          rw [fillValue_embarked] at hw
          by_cases hv0 : v0 = Value.vNA
          · rw [if_pos hv0] at hw
            exact absurd hw hmna
          · rw [if_neg hv0] at hw
            exact absurd hw hv0
        · by_cases hk3 : k = "Fare"
          · subst hk3
            rw [fillValue_fare] at hw
            by_cases hv0 : v0 = Value.vNA
            · rw [if_pos hv0] at hw
              have hfaresId : fares.map (fillValue
                  [("Age", medianVal ages), ("Embarked", m), ("Fare", medianVal fares)]
                  "Fare") = fares := by
                apply map_eq_self_of
                intro a ha
                rw [fillValue_fare]
                split_ifs with hna
                · rw [hna, hw]
                · rfl
              rw [fillValue_fare, if_pos rfl, hfaresId, hw]
            · rw [if_neg hv0] at hw
              exact absurd hw hv0
          · rw [fillValue_other _ _ _ _ hk1 hk2 hk3]
    · rw [fillValue, if_neg hw]
  -- assemble the second run of clean_data
  simp only [clean_data]
  rw [hnd, hdrop, hA', hE', hF']
  simp only [hsa', hsf', Bool.or_self, Bool.false_eq_true, if_false, hm', hid]

/-! ### Claims C4, C5 -/

/-- A dataset on which `clean_data` is defined: two rows that differ only in
a missing `Age`. -/
def exd4 : DataFrame :=
  [[("Age", Value.vNA), ("Embarked", Value.vStr "S"), ("Fare", Value.vNum 1)],
   [("Age", Value.vNum 5), ("Embarked", Value.vStr "S"), ("Fare", Value.vNum 1)]]

/-- `clean_data exd4`: imputation turns the two rows into exact duplicates. -/
def exc4 : DataFrame :=
  [[("Age", Value.vNum 5), ("Embarked", Value.vStr "S"), ("Fare", Value.vNum 1)],
   [("Age", Value.vNum 5), ("Embarked", Value.vStr "S"), ("Fare", Value.vNum 1)]]

/-- C4 (counterexample): `clean_data` is not idempotent on every dataset in
its domain.  On `exd4` the median fill makes the two rows equal, so the
second run deduplicates them and returns a one-row frame, different from
its input. -/
theorem claim4_counterexample :
    clean_data exd4 = some exc4 ∧ clean_data exc4 ≠ some exc4 := by
  decide

/-- C4 (amended): `clean_data` is idempotent on every dataset in its domain
whose cleaned output has pairwise-distinct rows — the condition the claim's
own parenthetical identifies as the obstruction ("rows become equal only
after imputation"). -/
theorem claim4_clean_idempotent_on_nodup {d c : DataFrame}
    (h : clean_data d = some c) (hnd : dedupFirst c = c) :
    clean_data c = some c := by
  obtain ⟨ages, embs, fares, m, hA, hE, hF, hsa, hsf, hm, hc⟩ := clean_data_ok h
  subst hc
  exact refill_fix hA hE hF hsa hsf hm (fun r hr => dropColumn_keys hr) hnd

/-- Five pairwise-distinct rows with a tie (`S` twice, `C` twice) in the
non-missing `Embarked` values and one missing `Embarked`. -/
def exd5 : DataFrame :=
  [[("Age", Value.vNum 30), ("Embarked", Value.vStr "S"), ("Fare", Value.vNum 1)],
   [("Age", Value.vNum 30), ("Embarked", Value.vStr "S"), ("Fare", Value.vNum 2)],
   [("Age", Value.vNum 30), ("Embarked", Value.vStr "C"), ("Fare", Value.vNum 3)],
   [("Age", Value.vNum 30), ("Embarked", Value.vStr "C"), ("Fare", Value.vNum 4)],
   [("Age", Value.vNum 30), ("Embarked", Value.vNA), ("Fare", Value.vNum 5)]]

/-- `clean_data exd5`: the missing `Embarked` is filled with `"C"`. -/
def exd5c : DataFrame :=
  [[("Age", Value.vNum 30), ("Embarked", Value.vStr "S"), ("Fare", Value.vNum 1)],
   [("Age", Value.vNum 30), ("Embarked", Value.vStr "S"), ("Fare", Value.vNum 2)],
   [("Age", Value.vNum 30), ("Embarked", Value.vStr "C"), ("Fare", Value.vNum 3)],
   [("Age", Value.vNum 30), ("Embarked", Value.vStr "C"), ("Fare", Value.vNum 4)],
   [("Age", Value.vNum 30), ("Embarked", Value.vStr "C"), ("Fare", Value.vNum 5)]]

theorem claim4_clean_idempotent_on_nodup_witness : clean_data exd5c = some exd5c :=
  @claim4_clean_idempotent_on_nodup exd5 exd5c (by decide) (by decide)

theorem map_congr_of {α β : Type} {l : List α} {f g : α → β}
    (h : ∀ a ∈ l, f a = g a) : l.map f = l.map g := by
  induction l with
  | nil => rfl
  | cons a t ih =>
    rw [List.map_cons, List.map_cons, h a (List.mem_cons_self a t),
      ih (fun b hb => h b (List.mem_cons_of_mem _ hb))]

/-- C5 (counterexample): with non-missing `Embarked` values
`S, S, C, C` the most frequent values are tied; the claim's tie-break
("first-encountered order") predicts the fill value `"S"`, but the code
(`Series.mode()` returns the tied modes in ascending sorted order and
`.iloc[0]` picks the smallest) fills the missing cell with `"C"`. -/
theorem claim5_counterexample :
    specModeFirst [Value.vStr "S", Value.vStr "S", Value.vStr "C", Value.vStr "C",
      Value.vNA] = some (Value.vStr "S") ∧
    clean_data exd5 = some exd5c ∧
    getCol exd5c "Embarked" =
      some [Value.vStr "S", Value.vStr "S", Value.vStr "C", Value.vStr "C",
        Value.vStr "C"] ∧
    Value.vStr "C" ≠ Value.vStr "S" := by
  decide

/-- C5 (amended): missing `Embarked` cells are filled with the single most
frequent non-missing value of the column computed over the
post-deduplication post-`Cabin`-drop data, with ties broken in favour of
the *smallest* value in sorted order (pandas `mode()` returns the tied
modes sorted ascending), not the first-encountered value. -/
theorem claim5_embarked_mode_fill {d c : DataFrame} (h : clean_data d = some c) :
    ∃ embs m,
      getCol (dropColumn (dedupFirst d) "Cabin") "Embarked" = some embs ∧
      m ∈ embs ∧ m ≠ Value.vNA ∧
      (∀ y ∈ embs, y ≠ Value.vNA → countNN embs y ≤ countNN embs m) ∧
      (∀ y ∈ embs, y ≠ Value.vNA → countNN embs y = countNN embs m →
        vlt y m = false) ∧
      getCol c "Embarked" =
        some (embs.map (fun v => if v = Value.vNA then m else v)) := by
  obtain ⟨ages, embs, fares, m, hA, hE, hF, hsa, hsf, hm, hc⟩ := clean_data_ok h
  obtain ⟨hmm, hmna, hmax, hmin⟩ := seriesMode_spec hm
  refine ⟨embs, m, hE, hmm, hmna, hmax, hmin, ?_⟩
  rw [hc]
  rw [getCol_map_fillRow
    [("Age", medianVal ages), ("Embarked", m), ("Fare", medianVal fares)] hE]
  congr 1

theorem claim5_embarked_mode_fill_witness :
    ∃ embs m,
      getCol (dropColumn (dedupFirst exd5) "Cabin") "Embarked" = some embs ∧
      m ∈ embs ∧ m ≠ Value.vNA ∧
      (∀ y ∈ embs, y ≠ Value.vNA → countNN embs y ≤ countNN embs m) ∧
      (∀ y ∈ embs, y ≠ Value.vNA → countNN embs y = countNN embs m →
        vlt y m = false) ∧
      getCol exd5c "Embarked" =
        some (embs.map (fun v => if v = Value.vNA then m else v)) :=
  @claim5_embarked_mode_fill exd5 exd5c (by decide)

/-! ### Feature engineering (`feature_engineering.py`, `generate_features`)

The `Title` regex `" ([A-Za-z]+)\."` finds, left to right, a space followed
by a non-empty run of ASCII letters followed by a literal dot, and captures
the run; `pd.cut` buckets ages into right-closed intervals; `np.quantile`
returns all-`NaN` breakpoints when the input contains a `NaN`, and every
comparison against `NaN` is false. -/

def isAsciiAlpha (c : Char) : Bool :=
  (('A'.toNat ≤ c.toNat) && (c.toNat ≤ 'Z'.toNat)) ||
  (('a'.toNat ≤ c.toNat) && (c.toNat ≤ 'z'.toNat))

/-- Leftmost match of `" ([A-Za-z]+)\."`: at each position, a space must be
followed by a maximal non-empty letter run and then a dot; otherwise the
scan moves one character to the right. -/
def titleScan : List Char → Option (List Char)
  | [] => none
  | c :: rest =>
    if c = ' ' then
      match rest.takeWhile isAsciiAlpha, rest.dropWhile isAsciiAlpha with
      | [], _ => titleScan rest
      | run, '.' :: _ => some run
      | _, _ => titleScan rest
    else titleScan rest

/-- `df["Name"].str.extract(r" ([A-Za-z]+)\.", expand=False)` on one name. -/
def extractTitle (s : String) : Option String :=
  (titleScan s.data).map (fun cs => String.mk cs)

def rareTitles : List String :=
  ["Lady", "Countess", "Capt", "Col", "Don", "Dr", "Major", "Rev", "Sir",
   "Jonkheer", "Dona"]

/-- `_group_titles` on one title: the fixed many-to-one normalization map. -/
def groupTitle (t : String) : String :=
  if t ∈ rareTitles then "Rare"
  else if t = "Mlle" then "Miss"
  else if t = "Ms" then "Miss"
  else if t = "Mme" then "Mrs"
  else t

/-- The `Title` cell computed from a `Name` cell: extraction then grouping;
non-string names and names without a match yield a missing value. -/
def titleOfName : Value → Value
  | .vStr s =>
    match extractTitle s with
    | some t => .vStr (groupTitle t)
    | none => .vNA
  | _ => .vNA

/-- Numeric addition with `NaN` propagation (string operands are excluded
by the guard in `generate_features`, mirroring the `TypeError` they raise). -/
def addV : Value → Value → Value
  | .vNum a, .vNum b => .vNum (qAdd a b)
  | _, _ => .vNA

/-- `(x == 1).astype(int)` on one cell: `NaN == 1` is false, giving 0. -/
def eqOneInt (v : Value) : Value :=
  if v = Value.vNum 1 then .vNum 1 else .vNum 0

/-- `pd.cut(age, bins=[0,12,18,35,60,100], labels=[...])` on one cell:
right-closed intervals; out-of-range or missing ages yield missing. -/
def ageBinV : Value → Value
  | .vNum a =>
    if a ≤ 0 then .vNA
    else if a ≤ 12 then .vStr "Child"
    else if a ≤ 18 then .vStr "Teenager"
    else if a ≤ 35 then .vStr "Adult"
    else if a ≤ 60 then .vStr "Middle"
    else if a ≤ 100 then .vStr "Senior"
    else .vNA
  | _ => .vNA

/-- `≤` between cells as numpy evaluates it: any comparison involving `NaN`
is false. -/
def vle : Value → Value → Bool
  | .vNum a, .vNum b => decide (a ≤ b)
  | _, _ => false

/-- `np.quantile` with the default linear interpolation on a sorted list. -/
def quantileAt (xs : List ℚ) (p : ℚ) : ℚ :=
  let h := qMul (qSub (xs.length : ℚ) 1) p
  let i := (qFloor h).toNat
  let g := qSub h (i : ℚ)
  let a := xs.getD i 0
  let b := xs.getD (i + 1) a
  qAdd a (qMul g (qSub b a))

/-- `np.quantile(fare, [0, .25, .5, .75, 1])`: all breakpoints are `NaN`
when the column contains a `NaN`. -/
def quantileValues (fares : List Value) : List Value :=
  if fares.any (fun v => v = Value.vNA) then
    [Value.vNA, Value.vNA, Value.vNA, Value.vNA, Value.vNA]
  else
    ([0, mkRat 1 4, mkRat 1 2, mkRat 3 4, 1] : List ℚ).map
      (fun p => Value.vNum (quantileAt (sortQ (fares.filterMap numPart)) p))

/-- `fare_to_bin`: bucket one fare against the quartile breakpoints. -/
def fareToBin (qs : List Value) (fare : Value) : Value :=
  if vle fare (qs.getD 1 Value.vNA) then .vStr "Low"
  else if vle fare (qs.getD 2 Value.vNA) then .vStr "Medium"
  else if vle fare (qs.getD 3 Value.vNA) then .vStr "High"
  else .vStr "Very High"

/-- `df["SibSp"] + df["Parch"] + 1`, element-wise. -/
def famsizeCol (sibs parchs : List Value) : List Value :=
  List.zipWith (fun a b => addV (addV a b) (Value.vNum 1)) sibs parchs

/-- `generate_features(df)`: add `FamilySize`, `IsAlone`, `Title`, `AgeBin`
and `FareBin`.  `none` models the exceptions: a missing column
(`KeyError`), string data in the arithmetic/cut/quantile columns
(`TypeError`), or an empty `Fare` column (`np.quantile` of an empty
array). -/
def generate_features (df : DataFrame) : Option DataFrame :=
  match getCol df "SibSp", getCol df "Parch" with
  | some sibs, some parchs =>
    if sibs.any isStrV || parchs.any isStrV then none
    else
      let famsize := famsizeCol sibs parchs
      let df1 := setCol df "FamilySize" famsize
      let df2 := setCol df1 "IsAlone" (famsize.map eqOneInt)
      match getCol df2 "Name" with
      | none => none
      | some names =>
        let df3 := setCol df2 "Title" (names.map titleOfName)
        match getCol df3 "Age" with
        | none => none
        | some ages =>
          if ages.any isStrV then none
          else
            let df4 := setCol df3 "AgeBin" (ages.map ageBinV)
            match getCol df4 "Fare" with
            | none => none
            | some fares =>
              if fares.isEmpty || fares.any isStrV then none
              else
                some (setCol df4 "FareBin"
                  (fares.map (fareToBin (quantileValues fares))))
  | _, _ => none

/-- Inversion of a successful `generate_features` call. -/
theorem generate_features_ok {df df' : DataFrame}
    (h : generate_features df = some df') :
    ∃ sibs parchs names ages fares df1 df2 df3 df4,
      getCol df "SibSp" = some sibs ∧
      getCol df "Parch" = some parchs ∧
      (sibs.any isStrV || parchs.any isStrV) = false ∧
      df1 = setCol df "FamilySize" (famsizeCol sibs parchs) ∧
      df2 = setCol df1 "IsAlone" ((famsizeCol sibs parchs).map eqOneInt) ∧
      getCol df2 "Name" = some names ∧
      df3 = setCol df2 "Title" (names.map titleOfName) ∧
      getCol df3 "Age" = some ages ∧
      ages.any isStrV = false ∧
      df4 = setCol df3 "AgeBin" (ages.map ageBinV) ∧
      getCol df4 "Fare" = some fares ∧
      (fares.isEmpty || fares.any isStrV) = false ∧
      df' = setCol df4 "FareBin" (fares.map (fareToBin (quantileValues fares))) := by
  simp only [generate_features] at h
  split at h
  rename_i sibs parchs h1 h2
  · split at h
    · exact Option.noConfusion h
    rename_i hguard1
    split at h
    · exact Option.noConfusion h
    rename_i names h3
    split at h
    · exact Option.noConfusion h
    rename_i ages h4
    split at h
    · exact Option.noConfusion h
    rename_i hguard2
    split at h
    · exact Option.noConfusion h
    rename_i fares h5
    split at h
    · exact Option.noConfusion h
    rename_i hguard3
    injection h with h
    refine ⟨sibs, parchs, names, ages, fares, _, _, _, _, h1, h2, ?_, rfl, rfl, h3,
      rfl, h4, ?_, rfl, h5, ?_, h.symm⟩
    · cases hb : (sibs.any isStrV || parchs.any isStrV)
      · rfl
      · exact absurd hb hguard1
    · cases hb : ages.any isStrV
      · rfl
      · exact absurd hb hguard2
    · cases hb : (fares.isEmpty || fares.any isStrV)
      · rfl
      · exact absurd hb hguard3
  · exact Option.noConfusion h

theorem getCol_mem_rows {df : DataFrame} {c : String} {vs : List Value}
    (h : getCol df c = some vs) : ∀ r ∈ df, ∃ v ∈ vs, getVal r c = some v := by
  induction df generalizing vs with
  | nil => intro r hr; cases hr
  | cons r0 rs ih =>
    intro r hr
    simp only [getCol] at h
    cases hv : getVal r0 c with
    | none => rw [hv] at h; cases h
    | some v =>
      rw [hv] at h
      cases hc : getCol rs c with
      | none => rw [hc] at h; cases h
      | some ws =>
        rw [hc] at h
        injection h with h
        subst h
        rcases List.mem_cons.mp hr with rfl | hr
        · exact ⟨v, List.mem_cons_self _ _, hv⟩
        · obtain ⟨w, hw, hgw⟩ := ih hc r hr
          exact ⟨w, List.mem_cons_of_mem _ hw, hgw⟩

/-- With all-missing quantile breakpoints every fare, missing or not, falls
through all three `≤` tests into the final bucket. -/
theorem fareToBin_nanAll (v : Value) :
    fareToBin [Value.vNA, Value.vNA, Value.vNA, Value.vNA, Value.vNA] v =
      Value.vStr "Very High" := by
  cases v <;> rfl

/-- The `Title` and `FareBin` columns produced by `generate_features`,
expressed against the input frame's `Name` and `Fare` columns. -/
theorem generate_features_cols {df df' : DataFrame}
    (h : generate_features df = some df') :
    ∃ names fares,
      getCol df "Name" = some names ∧
      getCol df "Fare" = some fares ∧
      getCol df' "Title" = some (names.map titleOfName) ∧
      getCol df' "FareBin" = some (fares.map (fareToBin (quantileValues fares))) := by
  obtain ⟨sibs, parchs, names, ages, fares, df1, df2, df3, df4, h1, h2, hg1, e1, e2,
    h3, e3, h4, hg2, e4, h5, hg3, e5⟩ := generate_features_ok h
  have lsibs := getCol_length h1
  have lparchs := getCol_length h2
  have lfam : (famsizeCol sibs parchs).length = df.length := by
    rw [famsizeCol, List.length_zipWith, lsibs, lparchs, min_self]
  have ldf1 : df1.length = df.length := by rw [e1]; exact setCol_length lfam
  have lfam2 : ((famsizeCol sibs parchs).map eqOneInt).length = df1.length := by
    rw [List.length_map, lfam, ldf1]
  have ldf2 : df2.length = df1.length := by rw [e2]; exact setCol_length lfam2
  have lnames := getCol_length h3
  have ltitles : (names.map titleOfName).length = df2.length := by
    rw [List.length_map, lnames]
  have ldf3 : df3.length = df2.length := by rw [e3]; exact setCol_length ltitles
  have lages := getCol_length h4
  have lageb : (ages.map ageBinV).length = df3.length := by
    rw [List.length_map, lages]
  have ldf4 : df4.length = df3.length := by rw [e4]; exact setCol_length lageb
  have lfares := getCol_length h5
  have lfb : (fares.map (fareToBin (quantileValues fares))).length = df4.length := by
    rw [List.length_map, lfares]
  have hname : getCol df "Name" = some names := by
    rw [← h3, e2, getCol_setCol_ne lfam2 (by decide), e1,
      getCol_setCol_ne lfam (by decide)]
  have hfare : getCol df "Fare" = some fares := by
    rw [← h5, e4, getCol_setCol_ne lageb (by decide), e3,
      getCol_setCol_ne ltitles (by decide), e2, getCol_setCol_ne lfam2 (by decide),
      e1, getCol_setCol_ne lfam (by decide)]
  refine ⟨names, fares, hname, hfare, ?_, ?_⟩
  · rw [e5, getCol_setCol_ne lfb (by decide), e4, getCol_setCol_ne lageb (by decide),
      e3, getCol_setCol_self ltitles]
  · rw [e5, getCol_setCol_self (by rw [lfb, ldf4, ldf3])]

/-! ### Claims C8, C9 -/

/-- C8: for every row, the `Title` column equals the grouped extraction of
the run of letters immediately preceding a literal period and preceded by a
space in the `Name` field (missing when no match exists); in particular
"Braund, Mr. Owen Harris" yields "Mr", a name with title "Dr." yields
"Rare" after grouping, and a name without a match yields a missing value. -/
theorem claim8_title_extraction {df df' : DataFrame} {names0 : List Value}
    (h : generate_features df = some df') (hn : getCol df "Name" = some names0) :
    getCol df' "Title" = some (names0.map titleOfName) ∧
    titleOfName (Value.vStr "Braund, Mr. Owen Harris") = Value.vStr "Mr" ∧
    titleOfName (Value.vStr "Carter, Dr. William Ernest") = Value.vStr "Rare" ∧
    titleOfName (Value.vStr "NoTitleHere") = Value.vNA := by
  obtain ⟨names, fares, hname, _, htitle, _⟩ := generate_features_cols h
  rw [hname] at hn
  injection hn with hn
  subst hn
  exact ⟨htitle, by decide, by decide, by decide⟩

/-- C9: if the `Fare` column contains at least one missing value, every row
of the generated frame gets `FareBin = "Very High"`, including rows whose
own fare is present: the quantile breakpoints are all missing and every
`≤` test against a missing breakpoint is false. -/
theorem claim9_missing_fare_forces_very_high {df df' : DataFrame}
    {fares0 : List Value} (h : generate_features df = some df')
    (hf : getCol df "Fare" = some fares0) (hna : Value.vNA ∈ fares0) :
    ∀ r ∈ df', getVal r "FareBin" = some (Value.vStr "Very High") := by
  obtain ⟨names, fares, _, hfare, _, hfb⟩ := generate_features_cols h
  rw [hfare] at hf
  injection hf with hf
  rw [← hf] at hna
  have hq : quantileValues fares =
      [Value.vNA, Value.vNA, Value.vNA, Value.vNA, Value.vNA] := by
    rw [quantileValues, if_pos]
    exact List.any_eq_true.mpr ⟨Value.vNA, hna, by simp⟩
  rw [hq] at hfb
  intro r hr
  obtain ⟨v, hv, hgv⟩ := getCol_mem_rows hfb r hr
  rw [List.mem_map] at hv
  obtain ⟨f, _, rfl⟩ := hv
  rw [fareToBin_nanAll f] at hgv
  exact hgv

/-- A two-row frame exercising the title extraction paths. -/
def exgf : DataFrame :=
  [[("SibSp", Value.vNum 1), ("Parch", Value.vNum 0),
    ("Name", Value.vStr "Braund, Mr. Owen Harris"),
    ("Age", Value.vNum 22), ("Fare", Value.vNum 7)],
   [("SibSp", Value.vNum 0), ("Parch", Value.vNum 0),
    ("Name", Value.vStr "Carter, Dr. William Ernest"),
    ("Age", Value.vNum 40), ("Fare", Value.vNum 9)]]

/-- `generate_features exgf`. -/
def exgfOut : DataFrame :=
  [[("SibSp", Value.vNum 1), ("Parch", Value.vNum 0),
    ("Name", Value.vStr "Braund, Mr. Owen Harris"),
    ("Age", Value.vNum 22), ("Fare", Value.vNum 7),
    ("FamilySize", Value.vNum 2), ("IsAlone", Value.vNum 0),
    ("Title", Value.vStr "Mr"), ("AgeBin", Value.vStr "Adult"),
    ("FareBin", Value.vStr "Low")],
   [("SibSp", Value.vNum 0), ("Parch", Value.vNum 0),
    ("Name", Value.vStr "Carter, Dr. William Ernest"),
    ("Age", Value.vNum 40), ("Fare", Value.vNum 9),
    ("FamilySize", Value.vNum 1), ("IsAlone", Value.vNum 1),
    ("Title", Value.vStr "Rare"), ("AgeBin", Value.vStr "Middle"),
    ("FareBin", Value.vStr "Very High")]]

theorem claim8_title_extraction_witness :
    getCol exgfOut "Title" =
      some (([Value.vStr "Braund, Mr. Owen Harris",
        Value.vStr "Carter, Dr. William Ernest"] : List Value).map titleOfName) ∧
    titleOfName (Value.vStr "Braund, Mr. Owen Harris") = Value.vStr "Mr" ∧
    titleOfName (Value.vStr "Carter, Dr. William Ernest") = Value.vStr "Rare" ∧
    titleOfName (Value.vStr "NoTitleHere") = Value.vNA :=
  @claim8_title_extraction exgf exgfOut
    [Value.vStr "Braund, Mr. Owen Harris", Value.vStr "Carter, Dr. William Ernest"]
    (by decide) (by decide)

/-- Like `exgf` but with one missing fare. -/
def exgf9 : DataFrame :=
  [[("SibSp", Value.vNum 1), ("Parch", Value.vNum 0),
    ("Name", Value.vStr "Braund, Mr. Owen Harris"),
    ("Age", Value.vNum 22), ("Fare", Value.vNA)],
   [("SibSp", Value.vNum 0), ("Parch", Value.vNum 0),
    ("Name", Value.vStr "Carter, Dr. William Ernest"),
    ("Age", Value.vNum 40), ("Fare", Value.vNum 9)]]

/-- `generate_features exgf9`: both rows get `FareBin = "Very High"`. -/
def exgf9Out : DataFrame :=
  [[("SibSp", Value.vNum 1), ("Parch", Value.vNum 0),
    ("Name", Value.vStr "Braund, Mr. Owen Harris"),
    ("Age", Value.vNum 22), ("Fare", Value.vNA),
    ("FamilySize", Value.vNum 2), ("IsAlone", Value.vNum 0),
    ("Title", Value.vStr "Mr"), ("AgeBin", Value.vStr "Adult"),
    ("FareBin", Value.vStr "Very High")],
   [("SibSp", Value.vNum 0), ("Parch", Value.vNum 0),
    ("Name", Value.vStr "Carter, Dr. William Ernest"),
    ("Age", Value.vNum 40), ("Fare", Value.vNum 9),
    ("FamilySize", Value.vNum 1), ("IsAlone", Value.vNum 1),
    ("Title", Value.vStr "Rare"), ("AgeBin", Value.vStr "Middle"),
    ("FareBin", Value.vStr "Very High")]]

theorem claim9_missing_fare_forces_very_high_witness :
    getVal (exgf9Out.getD 0 []) "FareBin" = some (Value.vStr "Very High") ∧
    getVal (exgf9Out.getD 1 []) "FareBin" = some (Value.vStr "Very High") :=
  ⟨@claim9_missing_fare_forces_very_high exgf9 exgf9Out
      [Value.vNA, Value.vNum 9] (by decide) (by decide) (by decide)
      (exgf9Out.getD 0 []) (by decide),
   @claim9_missing_fare_forces_very_high exgf9 exgf9Out
      [Value.vNA, Value.vNum 9] (by decide) (by decide) (by decide)
      (exgf9Out.getD 1 []) (by decide)⟩

/-! ### Data access (`data_processing.py`)

The filesystem is modelled abstractly: a set of existing directories and a
list of files, each carrying its byte size and its parsed CSV content.
Paths are segment lists; `BASE_DIR` is an abstract root. -/

abbrev FsPath := List String

def BASE_DIR : FsPath := ["BASE"]
def RAW_DATA_DIR : FsPath := BASE_DIR ++ ["data", "raw"]
def PROCESSED_DATA_DIR : FsPath := BASE_DIR ++ ["data", "processed"]
def SUBMISSION_DATA_DIR : FsPath := BASE_DIR ++ ["data", "submission"]

/-- The error taxonomy of the data-access layer.  `notFoundDir` and
`notFoundFile` both model Python's `FileNotFoundError` (the spec's
`NotFoundError`), with the two distinct messages of
`_validate_csv_file`; `emptyFile` models the `ValueError` for a zero-byte
file (the spec's `EmptyFileError`); `emptyDataset` the `ValueError` of
`save_data` (the spec's `EmptyDatasetError`). -/
inductive DataError where
  | notFoundDir (dir : FsPath)
  | notFoundFile (p : FsPath)
  | emptyFile (p : FsPath)
  | emptyDataset
deriving DecidableEq

structure FileSystem where
  dirs : List FsPath
  files : List (FsPath × ℕ × DataFrame)
deriving DecidableEq

def findFile (fs : FileSystem) (p : FsPath) : Option (FsPath × ℕ × DataFrame) :=
  fs.files.find? (fun e => e.1 == p)

/-- `_validate_csv_file(file_path)`: check, in order, that the parent
directory exists, that the file exists, and that it is not empty. -/
def validate_csv_file (fs : FileSystem) (file_path : FsPath) :
    Except DataError Unit :=
  if file_path.dropLast ∈ fs.dirs then
    match findFile fs file_path with
    | none => .error (.notFoundFile file_path)
    | some e => if e.2.1 = 0 then .error (.emptyFile file_path) else .ok ()
  else .error (.notFoundDir file_path.dropLast)

/-- `pd.read_csv`: return the parsed content; a missing file raises
`FileNotFoundError`. -/
def read_csv (fs : FileSystem) (p : FsPath) : Except DataError DataFrame :=
  match findFile fs p with
  | some e => .ok e.2.2
  | none => .error (.notFoundFile p)

inductive LoadKind where
  | raw
  | processed
deriving DecidableEq

/-- `load_data(file_name, data_type)`. -/
def load_data (fs : FileSystem) (file_name : String) (data_type : LoadKind) :
    Except DataError DataFrame :=
  let data_dir := match data_type with
    | .raw => RAW_DATA_DIR
    | .processed => PROCESSED_DATA_DIR
  let file_path := data_dir ++ [file_name]
  match validate_csv_file fs file_path with
  | .error e => .error e
  | .ok _ => read_csv fs file_path

inductive SaveKind where
  | processed
  | submission
deriving DecidableEq

/-- The non-empty initial segments of a path, shortest first: the
directories created by `mkdir(parents=True)`. -/
def ancestorsOf (p : FsPath) : List FsPath :=
  (List.range p.length).map (fun k => p.take (k + 1))

/-- `path.mkdir(parents=True, exist_ok=True)`. -/
def mkdirParents (fs : FileSystem) (dir : FsPath) : FileSystem :=
  { fs with dirs := fs.dirs ++ (ancestorsOf dir).filter (fun q => q ∉ fs.dirs) }

/-- The size of the serialized CSV (header plus one line per row); the
claims only rely on it being non-zero. -/
def csvSize (df : DataFrame) : ℕ := df.length + 1

/-- `df.to_csv(path, index=...)`: with `index=True` pandas would prepend a
synthetic row-index column; the source always passes `index=False`. -/
def to_csv (df : DataFrame) (index : Bool) : DataFrame :=
  if index then (df.enum.map (fun p => ("index", Value.vNum (p.1 : ℚ)) :: p.2)) else df

/-- Replace or insert the file at `p`. -/
def writeFile (fs : FileSystem) (p : FsPath) (content : DataFrame) : FileSystem :=
  { fs with files := (p, csvSize content, content) ::
      fs.files.filter (fun e => e.1 ≠ p) }

/-- pandas `df.empty`: true when either axis has length zero — no rows,
or no columns.  A rectangular frame with no columns is represented in the
row-list model as a list of empty association lists. -/
def dfEmpty (df : DataFrame) : Bool :=
  df.isEmpty || df.all (fun r => r.isEmpty)

/-- `save_data(df, file_name, data_type)`: refuse an empty frame
(`df.empty`, i.e. either axis of length zero) before touching the
filesystem; otherwise create the destination directory (and parents) and
write the CSV without an index column, overwriting.  The result pairs the
outcome with the filesystem after the call. -/
def save_data (df : DataFrame) (file_name : String) (data_type : SaveKind)
    (fs : FileSystem) : Except DataError Unit × FileSystem :=
  if dfEmpty df then (.error .emptyDataset, fs)
  else
    let data_dir := match data_type with
      | .processed => PROCESSED_DATA_DIR
      | .submission => SUBMISSION_DATA_DIR
    let file_path := data_dir ++ [file_name]
    let fs1 := mkdirParents fs file_path.dropLast
    let fs2 := writeFile fs1 file_path (to_csv df false)
    (.ok (), fs2)

def loadDirFor (data_type : LoadKind) : FsPath :=
  match data_type with
  | .raw => RAW_DATA_DIR
  | .processed => PROCESSED_DATA_DIR

def saveDirFor (data_type : SaveKind) : FsPath :=
  match data_type with
  | .processed => PROCESSED_DATA_DIR
  | .submission => SUBMISSION_DATA_DIR

/-! ### Claims C6, C7 -/

theorem dropLast_app_single (l : List String) (a : String) :
    (l ++ [a]).dropLast = l := by simp

/-- C6: `load_data` fails with the directory-not-found error when the
resolved parent directory does not exist (regardless of anything else),
then with the file-not-found error when the file is absent, then with the
empty-file error when the file has zero length, and otherwise parses and
returns the stored content.  The order of the three checks is visible in
which error wins when several conditions hold. -/
theorem claim6_load_data_checks (fs : FileSystem) (file_name : String)
    (data_type : LoadKind) :
    (loadDirFor data_type ∉ fs.dirs →
      load_data fs file_name data_type =
        .error (.notFoundDir (loadDirFor data_type))) ∧
    (loadDirFor data_type ∈ fs.dirs →
      findFile fs (loadDirFor data_type ++ [file_name]) = none →
      load_data fs file_name data_type =
        .error (.notFoundFile (loadDirFor data_type ++ [file_name]))) ∧
    (∀ e, loadDirFor data_type ∈ fs.dirs →
      findFile fs (loadDirFor data_type ++ [file_name]) = some e → e.2.1 = 0 →
      load_data fs file_name data_type =
        .error (.emptyFile (loadDirFor data_type ++ [file_name]))) ∧
    (∀ e, loadDirFor data_type ∈ fs.dirs →
      findFile fs (loadDirFor data_type ++ [file_name]) = some e → e.2.1 ≠ 0 →
      load_data fs file_name data_type = .ok e.2.2) := by
  cases data_type <;>
  · simp only [loadDirFor]
    refine ⟨?_, ?_, ?_, ?_⟩
    · intro h
      simp only [load_data, validate_csv_file, dropLast_app_single]
      rw [if_neg h]
    · intro h hfind
      simp only [load_data, validate_csv_file, dropLast_app_single]
      rw [if_pos h, hfind]
    · intro e h hfind hz
      simp only [load_data, validate_csv_file, dropLast_app_single]
      rw [if_pos h, hfind]
      simp [hz]
    · intro e h hfind hz
      simp only [load_data, validate_csv_file, read_csv, dropLast_app_single]
      rw [if_pos h, hfind]
      simp [hz]

/-- A filesystem with the raw directory, one regular file and one
zero-byte file. -/
def exFs : FileSystem where
  dirs := [RAW_DATA_DIR]
  files := [(RAW_DATA_DIR ++ ["train.csv"], 5, [[("A", Value.vNum 1)]]),
            (RAW_DATA_DIR ++ ["empty.csv"], 0, [])]

theorem claim6_load_data_checks_witness :
    load_data exFs "x.csv" .processed =
      .error (.notFoundDir (loadDirFor .processed)) ∧
    load_data exFs "missing.csv" .raw =
      .error (.notFoundFile (loadDirFor .raw ++ ["missing.csv"])) ∧
    load_data exFs "empty.csv" .raw =
      .error (.emptyFile (loadDirFor .raw ++ ["empty.csv"])) ∧
    load_data exFs "train.csv" .raw = .ok [[("A", Value.vNum 1)]] :=
  ⟨(claim6_load_data_checks exFs "x.csv" .processed).1 (by decide),
   (claim6_load_data_checks exFs "missing.csv" .raw).2.1 (by decide) (by decide),
   (claim6_load_data_checks exFs "empty.csv" .raw).2.2.1
     (RAW_DATA_DIR ++ ["empty.csv"], 0, []) (by decide) (by decide) (by decide),
   (claim6_load_data_checks exFs "train.csv" .raw).2.2.2
     (RAW_DATA_DIR ++ ["train.csv"], 5, [[("A", Value.vNum 1)]])
     (by decide) (by decide) (by decide)⟩

theorem find_in_filtered {files : List (FsPath × ℕ × DataFrame)} {p path : FsPath}
    (h : p ≠ path) :
    (files.filter (fun e => e.1 ≠ path)).find? (fun e => e.1 == p) =
      files.find? (fun e => e.1 == p) := by
  induction files with
  | nil => rfl
  | cons e es ih =>
    by_cases he : e.1 = path
    · rw [List.filter_cons_of_neg (by simpa using he)]
      rw [ih]
      have hne : ¬ (e.1 == p) = true := by
        simp [he, Ne.symm h]
      exact (List.find?_cons_of_neg es hne).symm
    · rw [List.filter_cons_of_pos (by simpa using he)]
      by_cases hp : e.1 = p
      · exact (List.find?_cons_of_pos _ (by simpa using hp)).trans
          (List.find?_cons_of_pos es (by simpa using hp)).symm
      · exact ((List.find?_cons_of_neg _ (by simpa using hp)).trans ih).trans
          (List.find?_cons_of_neg es (by simpa using hp)).symm

/-- An initially empty filesystem. -/
def exFs7 : FileSystem where
  dirs := []
  files := []

/-- Three rows, no columns: pandas shape `(3, 0)`. -/
def exdf7 : DataFrame := [[], [], []]

/-- C7 (counterexample): the claim says `save_data` fails with the
empty-dataset error if and only if the dataset has zero rows.  But the
source guard is `if df.empty:`, and pandas `df.empty` is also true for a
frame with rows and no columns (shape `(3, 0)`, here three empty rows):
the program raises `EmptyDatasetError` although the row count is 3. -/
theorem claim7_counterexample :
    exdf7.length = 3 ∧
    (save_data exdf7 "out.csv" .processed exFs7).1 = .error .emptyDataset ∧
    (save_data exdf7 "out.csv" .processed exFs7).2 = exFs7 :=
  ⟨rfl, rfl, rfl⟩

/-- C7 (amended): `save_data` fails with the empty-dataset error if and
only if the frame is empty in pandas' sense — zero rows or zero columns —
leaving the filesystem unchanged in that case; on a frame with at least
one row and at least one column it succeeds, creates the destination
directory and all its ancestors if absent, keeps all previously existing
directories, and writes the frame as CSV without a row-index column at the
destination path, overwriting any existing file there and leaving every
other file untouched. -/
theorem claim7_save_data (df : DataFrame) (file_name : String)
    (data_type : SaveKind) (fs : FileSystem) :
    ((save_data df file_name data_type fs).1 = .error .emptyDataset ↔
      dfEmpty df = true) ∧
    (dfEmpty df = true → (save_data df file_name data_type fs).2 = fs) ∧
    (dfEmpty df = false →
      (save_data df file_name data_type fs).1 = .ok () ∧
      to_csv df false = df ∧
      findFile (save_data df file_name data_type fs).2
          (saveDirFor data_type ++ [file_name]) =
        some (saveDirFor data_type ++ [file_name], csvSize df, df) ∧
      (∀ p, p ≠ saveDirFor data_type ++ [file_name] →
        findFile (save_data df file_name data_type fs).2 p = findFile fs p) ∧
      (∀ q ∈ fs.dirs, q ∈ (save_data df file_name data_type fs).2.dirs) ∧
      (∀ q ∈ ancestorsOf ((saveDirFor data_type ++ [file_name]).dropLast),
        q ∈ (save_data df file_name data_type fs).2.dirs)) := by
  by_cases hemp : dfEmpty df = true
  · have hs : save_data df file_name data_type fs = (.error .emptyDataset, fs) := by
      cases data_type <;>
      · simp only [save_data, hemp, if_true]
    refine ⟨?_, fun _ => by rw [hs], ?_⟩
    · rw [hs]
      simp [hemp]
    · intro hc
      rw [hemp] at hc
      cases hc
  · rw [Bool.not_eq_true] at hemp
    have hs : save_data df file_name data_type fs =
        (.ok (), writeFile
          (mkdirParents fs ((saveDirFor data_type ++ [file_name]).dropLast))
          (saveDirFor data_type ++ [file_name]) df) := by
      cases data_type <;>
      · simp only [save_data, hemp, Bool.false_eq_true, if_false, saveDirFor, to_csv]
    refine ⟨?_, ?_, ?_⟩
    · rw [hs]
      simp [hemp]
    · intro hc
      rw [hemp] at hc
      cases hc
    · intro _
      refine ⟨by rw [hs], rfl, ?_, ?_, ?_, ?_⟩
      · rw [hs]
        simp only [writeFile, findFile]
        rw [List.find?_cons_of_pos _ (by simp)]
      · intro p hp
        rw [hs]
        simp only [writeFile, findFile, mkdirParents]
        rw [List.find?_cons_of_neg _ (by simp [Ne.symm hp])]
        exact find_in_filtered hp
      · intro q hq
        rw [hs]
        simp only [writeFile, mkdirParents]
        exact List.mem_append_left _ hq
      · intro q hq
        rw [hs]
        simp only [writeFile, mkdirParents]
        by_cases hmem : q ∈ fs.dirs
        · exact List.mem_append_left _ hmem
        · exact List.mem_append_right _
            (List.mem_filter.mpr ⟨hq, by simpa using hmem⟩)

theorem claim7_save_data_witness :
    ((save_data [[("A", Value.vNum 1)]] "out.csv" .processed exFs7).1 = .ok () ∧
      to_csv [[("A", Value.vNum 1)]] false = [[("A", Value.vNum 1)]] ∧
      findFile (save_data [[("A", Value.vNum 1)]] "out.csv" .processed exFs7).2
          (saveDirFor .processed ++ ["out.csv"]) =
        some (saveDirFor .processed ++ ["out.csv"],
          csvSize [[("A", Value.vNum 1)]], [[("A", Value.vNum 1)]]) ∧
      (∀ p, p ≠ saveDirFor .processed ++ ["out.csv"] →
        findFile (save_data [[("A", Value.vNum 1)]] "out.csv" .processed exFs7).2 p =
          findFile exFs7 p) ∧
      (∀ q ∈ exFs7.dirs,
        q ∈ (save_data [[("A", Value.vNum 1)]] "out.csv" .processed exFs7).2.dirs) ∧
      (∀ q ∈ ancestorsOf ((saveDirFor .processed ++ ["out.csv"]).dropLast),
        q ∈ (save_data [[("A", Value.vNum 1)]] "out.csv" .processed exFs7).2.dirs)) ∧
    ((save_data ([] : DataFrame) "out.csv" .processed exFs7).1 =
      .error .emptyDataset ∧
      (save_data ([] : DataFrame) "out.csv" .processed exFs7).2 = exFs7) :=
  ⟨(claim7_save_data [[("A", Value.vNum 1)]] "out.csv" .processed exFs7).2.2
      (by decide),
   (claim7_save_data ([] : DataFrame) "out.csv" .processed exFs7).1.mpr (by decide),
   (claim7_save_data ([] : DataFrame) "out.csv" .processed exFs7).2.1 (by decide)⟩

/-! ### Claim C10: `encode_features` does not mutate its caller's frames

Python dataframes are mutable heap objects and `_encode_column` assigns
into the frames it is given, so the no-mutation claim is about aliasing:
it is modelled with an explicit heap of frames addressed by index.
`encode_features` first appends copies of the two argument frames
(`train.copy()` / `test.copy()`) and the loop then writes only through the
two fresh references. -/

abbrev Heap := List DataFrame

/-- `_encode_column` acting on the heap: reads the train frame, writes the
encoded train frame back in place, then reads the test frame from the
updated heap and writes the encoded test frame back in place. -/
def encode_column_mut (h : Heap) (trR teR : ℕ) (c : String) :
    Except EncErr (Heap × List String) :=
  match h[trR]? with
  | none => .error .keyError
  | some train =>
    match getCol train c with
    | none => .error .keyError
    | some tvs =>
      let strs := tvs.map valueToStr
      let cls := sortedUnique strs
      let h1 := h.set trR
        (setCol train c (strs.map (fun s => Value.vNum ((cls.indexOf s : ℕ) : ℚ))))
      match h1[teR]? with
      | none => .error .keyError
      | some test =>
        match getCol test c with
        | none => .error .keyError
        | some uvs =>
          match remapAll cls (uvs.map valueToStr) with
          | none => .error .indexError
          | some rs =>
            match leTransform cls rs with
            | .error e => .error e
            | .ok codes =>
              .ok (h1.set teR
                (setCol test c (codes.map (fun (n : ℕ) => Value.vNum (n : ℚ)))), cls)

def encodeColsMut (h : Heap) (trR teR : ℕ) :
    List String → Except EncErr (Heap × List (String × List String))
  | [] => .ok (h, [])
  | c :: cs =>
    match encode_column_mut h trR teR c with
    | .error e => .error e
    | .ok (h1, le) =>
      match encodeColsMut h1 trR teR cs with
      | .error e => .error e
      | .ok (h2, encs) => .ok (h2, (c, le) :: encs)

/-- `encode_features` on the heap: copy both argument frames to fresh
references, then encode the five columns through those references only.
Returns the final heap, the two fresh references and the encoders. -/
def encode_features_mut (h : Heap) (trR teR : ℕ) :
    Except EncErr (Heap × ℕ × ℕ × List (String × List String)) :=
  match h[trR]?, h[teR]? with
  | some trDf, some teDf =>
    match encodeColsMut (h ++ [trDf, teDf]) h.length (h.length + 1)
        categoricalCols with
    | .error e => .error e
    | .ok (h2, encs) => .ok (h2, h.length, h.length + 1, encs)
  | _, _ => .error .keyError

/-- One heap step writes only at the two given references. -/
theorem encode_column_mut_frame {h : Heap} {trR teR : ℕ} {c : String}
    {h2 : Heap} {le : List String}
    (hok : encode_column_mut h trR teR c = .ok (h2, le)) :
    ∀ i, i ≠ trR → i ≠ teR → h2[i]? = h[i]? := by
  simp only [encode_column_mut] at hok
  split at hok
  · exact Except.noConfusion hok
  rename_i train htr
  split at hok
  · exact Except.noConfusion hok
  rename_i tvs htvs
  split at hok
  · exact Except.noConfusion hok
  rename_i test hte
  split at hok
  · exact Except.noConfusion hok
  rename_i uvs huvs
  split at hok
  · exact Except.noConfusion hok
  rename_i rs hrs
  split at hok
  · exact Except.noConfusion hok
  rename_i codes hcodes
  injection hok with hok
  rw [Prod.mk.injEq] at hok
  obtain ⟨hA, _⟩ := hok
  subst hA
  intro i hi1 hi2
  rw [List.getElem?_set_ne (Ne.symm hi2), List.getElem?_set_ne (Ne.symm hi1)]

theorem encodeColsMut_frame {cols : List String} :
    ∀ {h : Heap} {trR teR : ℕ} {h2 : Heap} {encs : List (String × List String)},
    encodeColsMut h trR teR cols = .ok (h2, encs) →
    ∀ i, i ≠ trR → i ≠ teR → h2[i]? = h[i]? := by
  induction cols with
  | nil =>
    intro h trR teR h2 encs hok i hi1 hi2
    simp only [encodeColsMut] at hok
    injection hok with hok
    rw [Prod.mk.injEq] at hok
    rw [← hok.1]
  | cons c cs ih =>
    intro h trR teR h2 encs hok i hi1 hi2
    simp only [encodeColsMut] at hok
    split at hok
    · exact Except.noConfusion hok
    rename_i h1 le h1ok
    split at hok
    · exact Except.noConfusion hok
    rename_i h3 encs3 h3ok
    injection hok with hok
    rw [Prod.mk.injEq] at hok
    obtain ⟨hA, _⟩ := hok
    subst hA
    rw [ih h3ok i hi1 hi2, encode_column_mut_frame h1ok i hi1 hi2]

/-- C10: `encode_features` never mutates the caller's frames.  In the heap
model, after a successful call every pre-existing heap cell — in
particular the two argument frames — holds exactly the frame it held
before the call; only the two freshly appended copies are written. -/
theorem claim10_no_caller_mutation {h : Heap} {trR teR : ℕ} {h2 : Heap}
    {trR2 teR2 : ℕ} {encs : List (String × List String)}
    (hok : encode_features_mut h trR teR = .ok (h2, trR2, teR2, encs)) :
    (∀ i, i < h.length → h2[i]? = h[i]?) ∧
    h2[trR]? = h[trR]? ∧ h2[teR]? = h[teR]? := by
  simp only [encode_features_mut] at hok
  split at hok
  rename_i trDf teDf htr hte
  · split at hok
    · exact Except.noConfusion hok
    rename_i h3 encs3 h3ok
    injection hok with hok
    rw [Prod.mk.injEq] at hok
    obtain ⟨hA, _⟩ := hok
    subst hA
    have hmain : ∀ i, i < h.length → h3[i]? = h[i]? := by
      intro i hi
      rw [encodeColsMut_frame h3ok i (by omega) (by omega)]
      exact List.getElem?_append_left hi
    have htrlt : trR < h.length := (List.getElem?_eq_some.mp htr).1
    have htelt : teR < h.length := (List.getElem?_eq_some.mp hte).1
    exact ⟨hmain, hmain trR htrlt, hmain teR htelt⟩
  · exact Except.noConfusion hok

theorem claim10_no_caller_mutation_witness :
    (∀ i, i < ([exTrain5, exTest5] : Heap).length →
      ([exTrain5, exTest5, exTrain5Enc, exTest5Enc] : Heap)[i]? =
        ([exTrain5, exTest5] : Heap)[i]?) ∧
    ([exTrain5, exTest5, exTrain5Enc, exTest5Enc] : Heap)[0]? =
      ([exTrain5, exTest5] : Heap)[0]? ∧
    ([exTrain5, exTest5, exTrain5Enc, exTest5Enc] : Heap)[1]? =
      ([exTrain5, exTest5] : Heap)[1]? :=
  @claim10_no_caller_mutation [exTrain5, exTest5] 0 1
    [exTrain5, exTest5, exTrain5Enc, exTest5Enc] 2 3 exEncoders (by rfl)
